import Mathlib

/-!
Verification development for the grid interpolation engine
(`modulus/sym/models/interpolation.py`).

The embedding works over exact rationals: grid specifications, query
coordinates and context-grid values are `ℚ`; index arithmetic is `ℤ`/`ℕ`.
The gaussian kernel needs `Real.exp`, so its weights (and the combined
entry point `interpolation`) live in `ℝ`; every other part of the pipeline
is computable.  Tensors are shallowly embedded: a flattened row-major
tensor is a flat accessor function together with its shape, and the
broadcast / reshape / gather rules of the tensor library are modelled
where they decide success or failure.
-/

namespace Modulus

/-- Error kinds the pipeline can surface (tensor-library failures: shape
incompatibilities from broadcast/reshape/pad, the explicit `RuntimeError`
for unsupported grid dimensionality, and out-of-range gather indices). -/
inductive InterpError
  | shapeMismatch
  | unsupportedDim
  | indexOutOfRange
  deriving DecidableEq, Repr

/-- One rectilinear axis of the grid specification: the source's
`(min, max, resolution)` tuple. -/
structure Axis where
  lo : ℚ
  hi : ℚ
  res : ℕ
  deriving DecidableEq, Repr

abbrev Grid := List Axis

instance {ε α : Type} [DecidableEq ε] [DecidableEq α] : DecidableEq (Except ε α) :=
  fun a b =>
    match a, b with
    | .ok x, .ok y =>
        if h : x = y then .isTrue (by rw [h]) else .isFalse (by simp [h])
    | .error e, .error e' =>
        if h : e = e' then .isTrue (by rw [h]) else .isFalse (by simp [h])
    | .ok _, .error _ => .isFalse (by simp)
    | .error _, .ok _ => .isFalse (by simp)

/-- Per-axis spacing: `dx = (x[1] - x[0]) / (x[2] - 1)`. -/
def dxAx (a : Axis) : ℚ := (a.hi - a.lo) / ((a.res : ℚ) - 1)

/-- The per-axis spacing list computed in `interpolation`. -/
def dxs (g : Grid) : List ℚ := g.map dxAx

/-- Padded per-axis node counts `x[2] + 2*k`. -/
def paddedRes (g : Grid) (k : ℕ) : List ℕ := g.map fun a => a.res + 2 * k

/-- Total number of nodes of the padded lattice. -/
def nrGridPoints (g : Grid) (k : ℕ) : ℕ := (paddedRes g k).prod

/-- Per-axis start coordinate; shifted down by `k*dx` when padding
(`start = start - (k * dx)` in `_grid_knn_idx`). -/
def gridStarts (g : Grid) (k : ℕ) (padding : Bool) : List ℚ :=
  g.map fun a => if padding then a.lo - (k : ℚ) * dxAx a else a.lo

/-- Truncation toward zero: the semantics of `.to(torch.int64)` on floats. -/
def truncQ (x : ℚ) : ℤ := if x < 0 then -⌊-x⌋ else ⌊x⌋

/-- The center offset `stride / 2.0 % 1.0` (fractional part of `S/2`). -/
def strideFrac (S : ℕ) : ℚ := Int.fract ((S : ℚ) / 2)

/-- The window `torch.arange(-((stride - 1) // 2), stride // 2 + 1)`. -/
def idx_add (S : ℕ) : List ℤ :=
  (List.range S).map fun j : ℕ => (j : ℤ) - (((S - 1) / 2 : ℕ) : ℤ)

/-- Elementwise binary op on two flat vectors under the tensor library's
broadcasting rule for a trailing axis: equal lengths act pointwise, a
length-one operand broadcasts, anything else is a shape error. -/
def bcast2 {α : Type} [Zero α] (f : α → α → α) (a b : List α) : Option (List α) :=
  if a.length = b.length then some (List.zipWith f a b)
  else if b.length = 1 then some (a.map fun x => f x (b.getD 0 0))
  else if a.length = 1 then some (b.map fun y => f (a.getD 0 0) y)
  else none

/-- `(((query_points - start) / dx) + frac).to(torch.int64)` with
broadcasting of the query vector against the per-axis `start`/`dx`. -/
def bcastCenter (q starts dxv : List ℚ) (frac : ℚ) : Option (List ℤ) :=
  if q.length = starts.length then
    some (List.zipWith (fun qi sd => truncQ ((qi - sd.1) / sd.2 + frac)) q (starts.zip dxv))
  else if starts.length = 1 then
    some (q.map fun qi => truncQ ((qi - starts.getD 0 0) / dxs0 + frac))
  else if q.length = 1 then
    some ((starts.zip dxv).map fun sd => truncQ ((q.getD 0 0 - sd.1) / sd.2 + frac))
  else none
where dxs0 : ℚ := dxv.getD 0 0

/-- The dimension-specific window enumeration of `_grid_knn_idx`: flat
indices of the `S^dims` window nodes, combined row-major with the padded
resolutions as strides; grids of more than three (or zero) axes raise. -/
def knnWindow (g : Grid) (S k : ℕ) (padding : Bool) (c : List ℤ) :
    Except InterpError (List ℤ) :=
  match g with
  | [_] => .ok ((idx_add S).map fun o => c.getD 0 0 + o)
  | [_, a1] =>
      let p1 : ℤ := (a1.res : ℤ) + (if padding then 2 * (k : ℤ) else 0)
      .ok ((idx_add S).flatMap fun o0 =>
        (idx_add S).map fun o1 => p1 * (c.getD 0 0 + o0) + (c.getD 1 0 + o1))
  | [_, a1, a2] =>
      let p1 : ℤ := (a1.res : ℤ) + (if padding then 2 * (k : ℤ) else 0)
      let p2 : ℤ := (a2.res : ℤ) + (if padding then 2 * (k : ℤ) else 0)
      .ok ((idx_add S).flatMap fun o0 =>
        (idx_add S).flatMap fun o1 =>
          (idx_add S).map fun o2 =>
            p2 * p1 * (c.getD 0 0 + o0) + p2 * (c.getD 1 0 + o1) + (c.getD 2 0 + o2))
  | _ => .error .unsupportedDim

/-- `_grid_knn_idx`: center index per axis, then the full window. -/
def grid_knn_idx (q : List ℚ) (g : Grid) (S : ℕ) (padding : Bool) :
    Except InterpError (List ℤ) :=
  match bcastCenter q (gridStarts g (S / 2) padding) (dxs g) (strideFrac S) with
  | none => .error .shapeMismatch
  | some c => knnWindow g S (S / 2) padding c

/-- Effectful map over a list; the whole call fails on the first failing
element (tensor operations are all-or-nothing). -/
def mapME {α β : Type} (f : α → Except InterpError β) : List α → Except InterpError (List β)
  | [] => .ok []
  | a :: as => do
      let b ← f a
      let bs ← mapME f as
      .ok (b :: bs)

/-- Option-valued map over a list. -/
def mapMO {α β : Type} (f : α → Option β) : List α → Option (List β)
  | [] => some []
  | a :: as => do
      let b ← f a
      let bs ← mapMO f as
      some (b :: bs)

def ofOption {α : Type} (e : InterpError) : Option α → Except InterpError α
  | none => .error e
  | some a => .ok a

/-- Gathering node rows at the window indices.  `mem = true` is
`index_values_low_mem` (python advanced indexing: negative indices in
`[-N, 0)` wrap around); `mem = false` is `index_values_high_mem`
(`torch.gather`: any index outside `[0, N)` raises). -/
def gatherE {α : Type} (mem : Bool) (N : ℕ) (get : ℕ → α) (idx : List ℤ) :
    Except InterpError (List α) :=
  mapME (fun i =>
    if 0 ≤ i ∧ i < (N : ℤ) then .ok (get i.toNat)
    else if mem = true ∧ -(N : ℤ) ≤ i ∧ i < 0 then .ok (get (i + N).toNat)
    else .error .indexOutOfRange) idx

/-- The context grid argument: a `[channels, *shape]` tensor given by its
channel count, spatial shape and a multi-index accessor (first index is
the channel). -/
structure CtxGrid where
  channels : ℕ
  shape : List ℕ
  data : List ℕ → ℚ

/-- Row-major decomposition of a flat index against a shape. -/
def unflatten : List ℕ → ℕ → List ℕ
  | [], _ => []
  | _ :: ps, f => f / ps.prod :: unflatten ps (f % ps.prod)

/-- Row-major flattening of a multi-index against a shape. -/
def flattenIdx : List ℕ → List ℕ → ℕ
  | _ :: ps, j :: js => j * ps.prod + flattenIdx ps js
  | _, _ => 0

/-- Shape after `F.pad(_, dims * (k, k))`: the last `dims` axes grow by
`2k`, all earlier axes (including the channel axis, if `dims` exceeds the
spatial rank) are untouched. -/
def padLastShape (sh : List ℕ) (d k : ℕ) : List ℕ :=
  sh.take (sh.length - d) ++ (sh.drop (sh.length - d)).map fun r => r + 2 * k

/-- Flat row-major accessor of the padded context tensor
`F.pad(context_grid, dims * (k, k))`: positions whose last-`dims` axes fall
in the `k`-wide borders read the zero fill, the rest read the original
data at the shifted multi-index. -/
def paddedCtxFlat (ctx : CtxGrid) (d k : ℕ) (f : ℕ) : ℚ :=
  let sh := ctx.channels :: ctx.shape
  let js := unflatten (padLastShape sh d k) f
  let m := sh.length
  let suf := js.drop (m - d)
  let osuf := sh.drop (m - d)
  if ∀ jr ∈ suf.zip osuf, k ≤ jr.1 ∧ jr.1 < jr.2 + k then
    ctx.data (js.take (m - d) ++ suf.map fun j => j - k)
  else 0

/-- The per-node channel row of the reshaped-and-swapped padded context
grid `torch.swapaxes(torch.reshape(padded, [1, nr_channels, nr_grid_points]), 1, 2)`:
entry `(node f, channel c)` reads flat element `c * nr_grid_points + f`. -/
def ctxRow (ctx : CtxGrid) (d k N : ℕ) (f : ℕ) : List ℚ :=
  (List.range ctx.channels).map fun c => paddedCtxFlat ctx d k (c * N + f)

/-- Coordinates of padded lattice node `f` (flat row-major), as built by
the padded `linspace`/`meshgrid`/`stack`/`view` sequence: axis `i` holds
`(lo - k*dx) + j_i * dx`. -/
def meshCoord (g : Grid) (k : ℕ) (f : ℕ) : List ℚ :=
  List.zipWith (fun (a : Axis) (j : ℕ) => (a.lo - (k : ℚ) * dxAx a) + (j : ℚ) * dxAx a)
    g (unflatten (paddedRes g k) f)

/-- The pipeline from argument checking up to the two gathers: pads and
reshapes the context grid (failing like `F.pad`/`torch.reshape` would on
inconsistent element counts), computes the window indices, gathers the
mesh coordinates (giving the per-slot distance vectors) and the context
rows.  Returns (distance vectors, context rows) per window slot. -/
def interpPre (mem : Bool) (g : Grid) (ctx : CtxGrid) (q : List ℚ) (S : ℕ) :
    Except InterpError (List (List ℚ) × List (List ℚ)) :=
  if g.length ≤ ctx.shape.length + 1 then
    if (padLastShape (ctx.channels :: ctx.shape) g.length (S / 2)).prod
        = ctx.channels * nrGridPoints g (S / 2) then do
      let idx ← grid_knn_idx q g S true
      let mesh ← gatherE mem (nrGridPoints g (S / 2)) (meshCoord g (S / 2)) idx
      let dists ← ofOption .shapeMismatch (mapMO (fun mv => bcast2 (· - ·) q mv) mesh)
      let vals ← gatherE mem (nrGridPoints g (S / 2))
        (ctxRow ctx g.length (S / 2) (nrGridPoints g (S / 2))) idx
      .ok (dists, vals)
    else .error .shapeMismatch
  else .error .shapeMismatch

/-- Cast a rational channel row to the real-valued output. -/
noncomputable def castRow (v : List ℚ) : List ℝ := v.map fun x : ℚ => (x : ℝ)

/-- `torch.clip(x, 0, 1)`. -/
def clip01 (x : ℚ) : ℚ := min (max x 0) 1

/-- `linear_step`. -/
def linear_step (x : ℚ) : ℚ := clip01 x

/-- `smooth_step_1`: `clip(3x^2 - 2x^3, 0, 1)`. -/
def smooth_step_1 (x : ℚ) : ℚ := clip01 (3 * x ^ 2 - 2 * x ^ 3)

/-- `smooth_step_2`: `clip(x^3 (6x^2 - 15x + 10), 0, 1)`. -/
def smooth_step_2 (x : ℚ) : ℚ := clip01 (x ^ 3 * (6 * x ^ 2 - 15 * x + 10))

/-- The loop body of `_hyper_cube_weighting`: successively multiply the
accumulated weights by the upper/lower factors of each further axis. -/
def hyperAux : List ℚ → List ℚ → List ℚ → List ℚ
  | acc, l :: ls, u :: us => hyperAux (acc.flatMap fun w => [w * u, w * l]) ls us
  | acc, _, _ => acc

/-- `_hyper_cube_weighting`: starts from `[upper[0], lower[0]]` and runs
the loop over the remaining axes, yielding `2^dim` corner weights. -/
def hyper_cube_weighting (lower upper : List ℚ) : List ℚ :=
  match lower, upper with
  | l0 :: ls, u0 :: us => hyperAux [u0, l0] ls us
  | _, _ => []

/-- `nearest_neighbor_weighting`: a single weight 1. -/
def nearest_neighbor_weighting (_dv : List (List ℚ)) (_dx : List ℚ) : Option (List ℚ) :=
  some [1]

/-- `linear_weighting`: normalize the distance vectors by `dx`, take the
first window slot as `lower_point` and the negated last slot as
`upper_point` (no clipping is applied), and combine by hypercube. -/
def linear_weighting (dv : List (List ℚ)) (dx : List ℚ) : Option (List ℚ) := do
  let lower ← bcast2 (· / ·) (dv.getD 0 []) dx
  let lastN ← bcast2 (· / ·) (dv.getLastD []) dx
  some (hyper_cube_weighting lower (lastN.map fun x => -x))

/-- `smooth_step_1_weighting`. -/
def smooth_step_1_weighting (dv : List (List ℚ)) (dx : List ℚ) : Option (List ℚ) := do
  let lower ← bcast2 (· / ·) (dv.getD 0 []) dx
  let lastN ← bcast2 (· / ·) (dv.getLastD []) dx
  some (hyper_cube_weighting (lower.map smooth_step_1)
    ((lastN.map fun x => -x).map smooth_step_1))

/-- `smooth_step_2_weighting`. -/
def smooth_step_2_weighting (dv : List (List ℚ)) (dx : List ℚ) : Option (List ℚ) := do
  let lower ← bcast2 (· / ·) (dv.getD 0 []) dx
  let lastN ← bcast2 (· / ·) (dv.getLastD []) dx
  some (hyper_cube_weighting (lower.map smooth_step_2)
    ((lastN.map fun x => -x).map smooth_step_2))

/-- `gaussian_weighting`: an isotropic gaussian density with `sigma = dx /
sharpen`, `sharpen = 2`, evaluated per slot at the distance vector,
multiplied across axes together with the density prefactor, then
normalized by the sum over the window. -/
noncomputable def gaussian_weighting (dv : List (List ℚ)) (dx : List ℚ) :
    Option (List ℝ) := do
  let dim := dx.length
  let sigma : List ℝ := dx.map fun d : ℚ => (d : ℝ) / 2
  let factor : ℝ := 1 / ((2 * Real.pi) ^ ((dim : ℝ) / 2) * sigma.prod)
  let gs ← mapMO (fun v => do
      let e ← bcast2 (fun a b => Real.exp (-(1 / 2) * (a / b) ^ 2))
        (v.map fun x : ℚ => (x : ℝ)) sigma
      some (factor * e.prod)) dv
  some (gs.map fun gi => gi / gs.sum)

/-- The five recognized kernel selectors. -/
inductive KernelType
  | nearest_neighbor
  | linear
  | smooth_step_1
  | smooth_step_2
  | gaussian
  deriving DecidableEq, Repr

/-- The per-kernel stride set at the top of `interpolation`. -/
def stride : KernelType → ℕ
  | .nearest_neighbor => 1
  | .linear => 2
  | .smooth_step_1 => 2
  | .smooth_step_2 => 2
  | .gaussian => 5

/-- Dispatch to the rational-valued weighting functions; the gaussian
kernel is real-valued and handled by `interpGauss` instead. -/
def algWeight : KernelType → List (List ℚ) → List ℚ → Option (List ℚ)
  | .nearest_neighbor => nearest_neighbor_weighting
  | .linear => linear_weighting
  | .smooth_step_1 => smooth_step_1_weighting
  | .smooth_step_2 => smooth_step_2_weighting
  | .gaussian => fun _ _ => none

/-- The weighted reduction `(weights * context_grid_idx).sum(dim=2)` with
the tensor library's broadcasting over the window-slot axis: the slot
counts must agree or one of them must be 1. -/
def reduceOut {α : Type} [CommRing α] (C : ℕ) (w : List α) (vals : List (List α)) :
    Except InterpError (List α) :=
  if w.length = vals.length then
    .ok ((List.range C).map fun c => ((w.zip vals).map fun p => p.1 * p.2.getD c 0).sum)
  else if w.length = 1 then
    .ok ((List.range C).map fun c => (vals.map fun v => w.getD 0 0 * v.getD c 0).sum)
  else if vals.length = 1 then
    .ok ((List.range C).map fun c => (w.map fun x => x * (vals.getD 0 []).getD c 0).sum)
  else .error .shapeMismatch

/-- One query through the pipeline for the four algebraic kernels
(everything is exact rational arithmetic). -/
def interpAlg (mem : Bool) (t : KernelType) (g : Grid) (ctx : CtxGrid) (q : List ℚ) :
    Except InterpError (List ℚ) := do
  let p ← interpPre mem g ctx q (stride t)
  let w ← ofOption .shapeMismatch (algWeight t p.1 (dxs g))
  reduceOut ctx.channels w p.2

/-- One query through the pipeline for the gaussian kernel. -/
noncomputable def interpGauss (mem : Bool) (g : Grid) (ctx : CtxGrid) (q : List ℚ) :
    Except InterpError (List ℝ) := do
  let p ← interpPre mem g ctx q (stride .gaussian)
  let w ← ofOption .shapeMismatch (gaussian_weighting p.1 (dxs g))
  reduceOut ctx.channels w (p.2.map castRow)

/-- One query point through `interpolation`, all kernels. -/
noncomputable def interpOne (mem : Bool) (t : KernelType) (g : Grid) (ctx : CtxGrid)
    (q : List ℚ) : Except InterpError (List ℝ) :=
  match t with
  | .gaussian => interpGauss mem g ctx q
  | _ => (interpAlg mem t g ctx q).map castRow

/-- `interpolation(query_points, context_grid, grid, interpolation_type,
mem_speed_trade)`: per-query channel values. -/
noncomputable def interpolation (query_points : List (List ℚ)) (context_grid : CtxGrid)
    (grid : Grid) (interpolation_type : KernelType) (mem_speed_trade : Bool) :
    Except InterpError (List (List ℝ)) :=
  mapME (interpOne mem_speed_trade interpolation_type grid context_grid) query_points

/-- The window weights the kernel weighter computes inside one
`interpolation` call (the `weights` tensor of the source, per slot). -/
noncomputable def kernelWeights (mem : Bool) (t : KernelType) (g : Grid) (ctx : CtxGrid)
    (q : List ℚ) : Except InterpError (List ℝ) := do
  let p ← interpPre mem g ctx q (stride t)
  match t with
  | .gaussian => ofOption .shapeMismatch (gaussian_weighting p.1 (dxs g))
  | _ => (ofOption .shapeMismatch (algWeight t p.1 (dxs g))).map castRow

/-- Computable restriction of `kernelWeights` to the rational kernels. -/
def kernelWeightsAlg (mem : Bool) (t : KernelType) (g : Grid) (ctx : CtxGrid)
    (q : List ℚ) : Except InterpError (List ℚ) := do
  let p ← interpPre mem g ctx q (stride t)
  ofOption .shapeMismatch (algWeight t p.1 (dxs g))

/-! ### Specification-side descriptions of the index arithmetic

These definitions re-express the window enumeration in the terms the
design document uses (per-axis center indices, per-axis offset windows,
row-major strides); the lemmas below relate them to the dimension-cased
code path. -/

/-- Per-axis center indices of an aligned query (the equal-length branch
of `bcastCenter`). -/
def centerIdx (q : List ℚ) (g : Grid) (S : ℕ) : List ℤ :=
  List.zipWith (fun qi sd => truncQ ((qi - sd.1) / sd.2 + strideFrac S)) q
    ((gridStarts g (S / 2) true).zip (dxs g))

/-- Row-major enumeration of the per-axis window node indices around the
given per-axis centers: `S^dims` slots, first axis slowest. -/
def specSlots (S : ℕ) : List ℤ → List (List ℤ)
  | [] => [[]]
  | c :: cs => (idx_add S).flatMap fun o => (specSlots S cs).map fun js => (c + o) :: js

/-- Row-major strides of a shape: per axis, the product of the later
axis sizes. -/
def rowStrides : List ℕ → List ℕ
  | [] => []
  | _ :: ps => ps.prod :: rowStrides ps

/-- Row-major flat index of a (signed) multi-index. -/
def rowFlat (ps : List ℕ) (js : List ℤ) : ℤ :=
  ((js.zip (rowStrides ps)).map fun p => p.1 * (p.2 : ℤ)).sum

/-- Coordinates of the padded lattice node with per-axis indices `js`. -/
def nodeCoords (g : Grid) (k : ℕ) (js : List ℤ) : List ℚ :=
  List.zipWith (fun (a : Axis) (j : ℤ) => (a.lo - (k : ℚ) * dxAx a) + (j : ℚ) * dxAx a) g js

/-- Distance vector from query `q` to the window node `js`. -/
def distOf (q : List ℚ) (g : Grid) (k : ℕ) (js : List ℤ) : List ℚ :=
  List.zipWith (· - ·) q (nodeCoords g k js)

/-- Channel row gathered at window node `js`: original data inside the
unpadded region, the zero fill on the padded border. -/
def valOf (ctx : CtxGrid) (g : Grid) (k : ℕ) (js : List ℤ) : List ℚ :=
  (List.range ctx.channels).map fun ch =>
    if ∀ p ∈ js.zip (g.map fun a => (a.res : ℤ)), (k : ℤ) ≤ p.1 ∧ p.1 < p.2 + k then
      ctx.data (ch :: js.map fun j => (j - (k : ℤ)).toNat)
    else 0

/-! ### Sample inputs used by concrete instances -/

/-- The unit axis `{min 0, max 1}` at a given resolution. -/
def axis01 (r : ℕ) : Axis := ⟨0, 1, r⟩

/-- 1D grid `{min 0, max 1, resolution 3}` (nodes 0, 1/2, 1). -/
def grid1 : Grid := [axis01 3]

/-- Single channel holding `[0, 10, 0]` on `grid1`. -/
def ctxHat : CtxGrid := ⟨1, [3], fun js => ([0, 10, 0] : List ℚ).getD (js.getD 1 0) 0⟩

/-- Single channel holding the constant 10 on `grid1`. -/
def ctxConst : CtxGrid := ⟨1, [3], fun _ => 10⟩

/-- Single channel holding `[1, 2, 3]` on `grid1`. -/
def ctxRamp : CtxGrid := ⟨1, [3], fun js => ([1, 2, 3] : List ℚ).getD (js.getD 1 0) 0⟩

/-- 2D grid, both axes `{0, 1, 3}`. -/
def grid2 : Grid := [axis01 3, axis01 3]

/-- Single all-zero channel on `grid2`. -/
def ctxZero2 : CtxGrid := ⟨1, [3, 3], fun _ => 0⟩

/-- 2D grid, both axes `{0, 1, 4}`. -/
def grid44 : Grid := [axis01 4, axis01 4]

/-- A `[1, 2, 7]` context tensor: 14 nodes, inconsistent with the 16
nodes `grid44` implies, but with a padded element count that happens to
match `grid44`'s padded node count for stride-2 kernels. -/
def ctx27 : CtxGrid := ⟨1, [2, 7], fun js => ((js.getD 1 0 : ℚ) + (js.getD 2 0 : ℚ))⟩

/-- 2D grid with axes `{0, 1, 3}` and `{0, 1, 4}`. -/
def grid34 : Grid := [axis01 3, axis01 4]

/-- Two channels on `grid34`, value `100*channel + 10*j0 + j1`. -/
def ctx34 : CtxGrid :=
  ⟨2, [3, 4], fun js =>
    ((js.getD 0 0 : ℚ)) * 100 + ((js.getD 1 0 : ℚ)) * 10 + ((js.getD 2 0 : ℚ))⟩

/-- The 12 nodes of `grid34` pre-flattened into a `[1, 12]` tensor. -/
def ctxFlat12 : CtxGrid := ⟨1, [12], fun js => (js.getD 1 0 : ℚ)⟩

/-- A 4-axis grid specification. -/
def grid4d : Grid := [axis01 2, axis01 2, axis01 2, axis01 2]

/-- A well-shaped context grid for `grid4d`. -/
def ctx4d : CtxGrid := ⟨1, [2, 2, 2, 2], fun _ => 0⟩

/-- A `[1, 4]` context tensor, inconsistent with `grid1`. -/
def ctxBad14 : CtxGrid := ⟨1, [4], fun _ => 0⟩

/-- Per-axis factor applied inside the stride-2 weighting functions. -/
def stepOf : KernelType → ℚ → ℚ
  | .smooth_step_1 => smooth_step_1
  | .smooth_step_2 => smooth_step_2
  | _ => id

/-- The weighting the specification text describes for the `linear`
kernel: identical to `linear_weighting` except that the per-axis factors
pass through `linear_step` (the clip to [0,1]), the way the smooth-step
weightings use their step functions.  Stated only to compare against the
code's `linear_weighting`, which never applies the clip. -/
def linear_weighting_spec (dv : List (List ℚ)) (dx : List ℚ) : Option (List ℚ) := do
  let lower ← bcast2 (· / ·) (dv.getD 0 []) dx
  let lastN ← bcast2 (· / ·) (dv.getLastD []) dx
  some (hyper_cube_weighting (lower.map linear_step)
    ((lastN.map fun x => -x).map linear_step))

/-! ### Helper lemmas -/

theorem mapME_ok {α β : Type} (f : α → Except InterpError β) (g : α → β) :
    ∀ l : List α, (∀ a ∈ l, f a = .ok (g a)) → mapME f l = .ok (l.map g)
  | [], _ => rfl
  | a :: as, h => by
    have ha := h a (by simp)
    have hrest := mapME_ok f g as fun x hx => h x (by simp [hx])
    simp only [mapME, ha, hrest, List.map_cons]
    rfl

theorem mapMO_some {α β : Type} (f : α → Option β) (g : α → β) :
    ∀ l : List α, (∀ a ∈ l, f a = some (g a)) → mapMO f l = some (l.map g)
  | [], _ => rfl
  | a :: as, h => by
    have ha := h a (by simp)
    have hrest := mapMO_some f g as fun x hx => h x (by simp [hx])
    simp only [mapMO, ha, hrest, List.map_cons]
    rfl

theorem gatherE_ok {α : Type} (mem : Bool) (N : ℕ) (get : ℕ → α) (idx : List ℤ)
    (h : ∀ i ∈ idx, 0 ≤ i ∧ i < (N : ℤ)) :
    gatherE mem N get idx = .ok (idx.map fun i => get i.toNat) := by
  apply mapME_ok
  intro i hi
  simp [h i hi]

theorem bcast2_eq_of_len {α : Type} [Zero α] (f : α → α → α) (a b : List α)
    (h : a.length = b.length) : bcast2 f a b = some (List.zipWith f a b) := by
  simp [bcast2, h]

/-- `F.pad` on a well-shaped `[channels, *resolutions]` tensor pads
exactly the spatial axes. -/
theorem padLastShape_wellshaped (C : ℕ) (rs : List ℕ) (k : ℕ) :
    padLastShape (C :: rs) rs.length k = C :: rs.map fun r => r + 2 * k := by
  simp [padLastShape]

theorem paddedRes_eq_map (g : Grid) (k : ℕ) :
    paddedRes g k = (g.map fun a => a.res).map fun r => r + 2 * k := by
  simp [paddedRes]

/-- The reshape check passes on a well-shaped context grid. -/
theorem reshape_check_wellshaped (g : Grid) (ctx : CtxGrid) (k : ℕ)
    (hsh : ctx.shape = g.map fun a => a.res) :
    (padLastShape (ctx.channels :: ctx.shape) g.length k).prod
      = ctx.channels * nrGridPoints g k := by
  have h1 : ctx.shape.length = g.length := by rw [hsh]; simp
  rw [← h1, padLastShape_wellshaped, nrGridPoints, paddedRes_eq_map, hsh]
  simp

@[simp] theorem except_bind_okE {α β : Type} (x : α) (f : α → Except InterpError β) :
    (Except.ok x : Except InterpError α) >>= f = f x := rfl

@[simp] theorem except_bind_errorE {α β : Type} (e : InterpError)
    (f : α → Except InterpError β) :
    (Except.error e : Except InterpError α) >>= f = .error e := rfl

@[simp] theorem except_map_okE {α β : Type} (f : α → β) (x : α) :
    Except.map f (Except.ok x : Except InterpError α) = .ok (f x) := rfl

@[simp] theorem except_map_errorE {α β : Type} (f : α → β) (e : InterpError) :
    Except.map f (Except.error e : Except InterpError α) = .error e := rfl

theorem interpOne_alg (mem : Bool) (t : KernelType) (g : Grid) (ctx : CtxGrid)
    (q : List ℚ) (ht : t ≠ .gaussian) :
    interpOne mem t g ctx q = (interpAlg mem t g ctx q).map castRow := by
  cases t <;> first | rfl | exact absurd rfl ht

theorem bcastCenter_aligned (q starts dxv : List ℚ) (frac : ℚ)
    (h : q.length = starts.length) :
    bcastCenter q starts dxv frac
      = some (List.zipWith (fun qi sd => truncQ ((qi - sd.1) / sd.2 + frac)) q
          (starts.zip dxv)) := by
  simp [bcastCenter, h]

theorem grid_knn_idx_aligned (q : List ℚ) (g : Grid) (S : ℕ)
    (hq : q.length = g.length) :
    grid_knn_idx q g S true = knnWindow g S (S / 2) true (centerIdx q g S) := by
  unfold grid_knn_idx
  rw [bcastCenter_aligned _ _ _ _ (by simp [gridStarts, hq])]
  rfl

theorem knnWindow_unsupported (g : Grid) (S k : ℕ) (pd : Bool) (c : List ℤ)
    (hd : ¬(g.length = 1 ∨ g.length = 2 ∨ g.length = 3)) :
    knnWindow g S k pd c = .error .unsupportedDim := by
  rcases g with _ | ⟨a0, _ | ⟨a1, _ | ⟨a2, _ | ⟨a3, rest⟩⟩⟩⟩
  · rfl
  · exact absurd (by simp) hd
  · exact absurd (by simp) hd
  · exact absurd (by simp) hd
  · rfl

theorem interpOne_pre_error (mem : Bool) (t : KernelType) (g : Grid) (ctx : CtxGrid)
    (q : List ℚ) (e : InterpError)
    (h : interpPre mem g ctx q (stride t) = .error e) :
    interpOne mem t g ctx q = .error e := by
  cases t <;> simp [interpOne, interpAlg, interpGauss, h]

theorem flatMap_singleton_map {α β : Type} (f : α → β) :
    ∀ l : List α, (l.flatMap fun x => [f x]) = l.map f
  | [] => rfl
  | a :: as => by simp [List.flatMap_cons, flatMap_singleton_map f as]

theorem flatMap_congr_fun {α β : Type} (l : List α) (f g : α → List β)
    (h : ∀ a ∈ l, f a = g a) : l.flatMap f = l.flatMap g := by
  induction l with
  | nil => rfl
  | cons a as ih =>
      simp only [List.flatMap_cons, h a (by simp), ih fun x hx => h x (by simp [hx])]

theorem truncQ_of_nonneg (x : ℚ) (h : 0 ≤ x) : truncQ x = ⌊x⌋ := by
  unfold truncQ
  rw [if_neg (not_lt.mpr h)]

theorem specSlots_cons (S : ℕ) (c : ℤ) (cs : List ℤ) :
    specSlots S (c :: cs)
      = (idx_add S).flatMap fun o => (specSlots S cs).map fun js => (c + o) :: js := rfl

theorem specSlots_one (S : ℕ) (c : ℤ) :
    specSlots S [c] = (idx_add S).map fun o => [c + o] := by
  rw [specSlots_cons]
  simp only [specSlots, List.map_cons, List.map_nil]
  exact flatMap_singleton_map _ _

theorem specSlots_two (S : ℕ) (c0 c1 : ℤ) :
    specSlots S [c0, c1] = (idx_add S).flatMap fun o0 =>
      (idx_add S).map fun o1 => [c0 + o0, c1 + o1] := by
  rw [specSlots_cons]
  simp only [specSlots_one, List.map_map, Function.comp_def]

theorem specSlots_three (S : ℕ) (c0 c1 c2 : ℤ) :
    specSlots S [c0, c1, c2] = (idx_add S).flatMap fun o0 =>
      (idx_add S).flatMap fun o1 =>
        (idx_add S).map fun o2 => [c0 + o0, c1 + o1, c2 + o2] := by
  rw [specSlots_cons]
  simp only [specSlots_two, List.map_flatMap, List.map_map, Function.comp_def]

theorem rowFlat_one (p0 : ℕ) (A : ℤ) : rowFlat [p0] [A] = A := by
  simp [rowFlat, rowStrides]

theorem rowFlat_two (p0 p1 : ℕ) (A B : ℤ) : rowFlat [p0, p1] [A, B] = A * p1 + B := by
  simp [rowFlat, rowStrides]

theorem rowFlat_three (p0 p1 p2 : ℕ) (A B C : ℤ) :
    rowFlat [p0, p1, p2] [A, B, C] = A * (p1 * p2) + B * p2 + C := by
  simp [rowFlat, rowStrides]
  ring

theorem knnWindow_eq_spec (g : Grid) (S k : ℕ) (cs : List ℤ)
    (hlen : cs.length = g.length)
    (hd : g.length = 1 ∨ g.length = 2 ∨ g.length = 3) :
    knnWindow g S k true cs = .ok ((specSlots S cs).map (rowFlat (paddedRes g k))) := by
  rcases g with _ | ⟨a0, _ | ⟨a1, _ | ⟨a2, _ | ⟨a3, rest⟩⟩⟩⟩
  · simp at hd
  · rcases cs with _ | ⟨c0, _ | ⟨c1, cs⟩⟩ <;> simp at hlen
    simp only [knnWindow, specSlots_one, List.map_map, Function.comp_def]
    refine congrArg Except.ok ?_
    apply List.map_congr_left
    intro o ho
    simp [rowFlat_one, paddedRes]
  · rcases cs with _ | ⟨c0, _ | ⟨c1, _ | ⟨c2, cs⟩⟩⟩ <;> simp at hlen
    simp only [knnWindow, specSlots_two, List.map_flatMap, List.map_map, Function.comp_def]
    refine congrArg Except.ok ?_
    apply flatMap_congr_fun
    intro o0 _
    apply List.map_congr_left
    intro o1 _
    simp [paddedRes, rowFlat_two]
    ring
  · rcases cs with _ | ⟨c0, _ | ⟨c1, _ | ⟨c2, _ | ⟨c3, cs⟩⟩⟩⟩ <;> simp at hlen
    simp only [knnWindow, specSlots_three, List.map_flatMap, List.map_map, Function.comp_def]
    refine congrArg Except.ok ?_
    apply flatMap_congr_fun
    intro o0 _
    apply flatMap_congr_fun
    intro o1 _
    apply List.map_congr_left
    intro o2 _
    simp [paddedRes, rowFlat_three]
    ring
  · simp at hd

theorem centerIdx_length (q : List ℚ) (g : Grid) (S : ℕ) (hq : q.length = g.length) :
    (centerIdx q g S).length = g.length := by
  simp [centerIdx, gridStarts, dxs, hq]

theorem forall_mem_of_zip {α β : Type} (P : α → Prop) :
    ∀ (l1 : List α) (l2 : List β), l1.length = l2.length →
      (∀ p ∈ l1.zip l2, P p.1) → ∀ a ∈ l1, P a := by
  intro l1
  induction l1 with
  | nil => simp
  | cons a l1 ih =>
      intro l2 h hp x hx
      rcases l2 with _ | ⟨b, l2⟩
      · simp at h
      rcases List.mem_cons.mp hx with rfl | hx'
      · exact hp (x, b) (by simp)
      · exact ih l2 (by simpa using h) (fun p hp' => hp p (by simp [hp'])) x hx'

theorem zipWith_congr_prop {α β γ : Type} (f h : α → β → γ) :
    ∀ (l1 : List α) (l2 : List β), (∀ b ∈ l2, ∀ a, f a b = h a b) →
      List.zipWith f l1 l2 = List.zipWith h l1 l2
  | [], _, _ => by simp
  | _ :: _, [], _ => by simp
  | a :: l1, b :: l2, hc => by
      simp only [List.zipWith_cons_cons, hc b (by simp) a]
      rw [zipWith_congr_prop f h l1 l2 fun x hx a' => hc x (by simp [hx]) a']

theorem specSlots_len {S : ℕ} : ∀ (cs : List ℤ), ∀ js ∈ specSlots S cs,
    js.length = cs.length
  | [], js, h => by simp [specSlots] at h; simp [h]
  | c :: cs, js, h => by
      rw [specSlots_cons] at h
      obtain ⟨o, ho, hjs⟩ := List.mem_flatMap.mp h
      obtain ⟨js', hjs', rfl⟩ := List.mem_map.mp hjs
      simp [specSlots_len cs js' hjs']

theorem specSlots_bounds {S : ℕ} : ∀ (cs : List ℤ) (ps : List ℕ),
    (∀ p ∈ cs.zip ps, ∀ o ∈ idx_add S, 0 ≤ p.1 + o ∧ p.1 + o < (p.2 : ℤ)) →
    ∀ js ∈ specSlots S cs, ∀ p ∈ js.zip ps, 0 ≤ p.1 ∧ p.1 < (p.2 : ℤ)
  | [], ps, _, js, hjs => by
      simp [specSlots] at hjs
      simp [hjs]
  | c :: cs, [], _, js, hjs => by
      intro p hp
      obtain ⟨o, ho, hjs'⟩ := List.mem_flatMap.mp hjs
      obtain ⟨js', _, rfl⟩ := List.mem_map.mp hjs'
      simp at hp
  | c :: cs, p0 :: ps, hin, js, hjs => by
      obtain ⟨o, ho, hjs'⟩ := List.mem_flatMap.mp hjs
      obtain ⟨js', hjs'', rfl⟩ := List.mem_map.mp hjs'
      intro p hp
      rcases List.mem_cons.mp hp with rfl | hp'
      · exact hin (c, p0) (by simp) o ho
      · exact specSlots_bounds cs ps
          (fun pr hpr o' ho' => hin pr (by simp [hpr]) o' ho') js' hjs'' p hp'

theorem rowFlat_nil : rowFlat [] [] = 0 := rfl

theorem rowFlat_cons (p : ℕ) (ps : List ℕ) (j : ℤ) (js : List ℤ) :
    rowFlat (p :: ps) (j :: js) = j * ((ps.prod : ℕ) : ℤ) + rowFlat ps js := by
  simp [rowFlat, rowStrides]

theorem rowFlat_bounds : ∀ (ps : List ℕ) (js : List ℤ), js.length = ps.length →
    (∀ p ∈ js.zip ps, 0 ≤ p.1 ∧ p.1 < (p.2 : ℤ)) →
    0 ≤ rowFlat ps js ∧ rowFlat ps js < ((ps.prod : ℕ) : ℤ)
  | [], [], _, _ => by simp [rowFlat_nil]
  | [], j :: js, h, _ => by simp at h
  | p :: ps, [], h, _ => by simp at h
  | p :: ps, j :: js, h, hb => by
      have hj := hb (j, p) (by simp)
      have hrest := rowFlat_bounds ps js (by simpa using h)
        (fun pr hpr => hb pr (by simp [hpr]))
      rw [rowFlat_cons]
      have hP : (0 : ℤ) ≤ ((ps.prod : ℕ) : ℤ) := by positivity
      have h3 : (j + 1) * ((ps.prod : ℕ) : ℤ) ≤ (p : ℤ) * ((ps.prod : ℕ) : ℤ) :=
        mul_le_mul_of_nonneg_right (by omega) hP
      have hProd : (((p :: ps).prod : ℕ) : ℤ) = (p : ℤ) * ((ps.prod : ℕ) : ℤ) := by
        push_cast [List.prod_cons]
        ring
      constructor
      · nlinarith [hrest.1, hj.1]
      · rw [hProd]
        nlinarith [hrest.2]

theorem flattenIdx_lt : ∀ (ps js : List ℕ), js.length = ps.length →
    (∀ p ∈ js.zip ps, p.1 < p.2) → flattenIdx ps js < ps.prod
  | [], [], _, _ => by simp [flattenIdx]
  | [], j :: js, h, _ => by simp at h
  | p :: ps, [], h, _ => by simp at h
  | p :: ps, j :: js, h, hb => by
      have hj := hb (j, p) (by simp)
      have hrest := flattenIdx_lt ps js (by simpa using h)
        (fun pr hpr => hb pr (by simp [hpr]))
      show j * ps.prod + flattenIdx ps js < (p :: ps).prod
      simp only [List.prod_cons]
      calc j * ps.prod + flattenIdx ps js < j * ps.prod + ps.prod := by omega
        _ = (j + 1) * ps.prod := by ring
        _ ≤ p * ps.prod := Nat.mul_le_mul_right _ (by omega)

theorem unflatten_flattenIdx : ∀ (ps js : List ℕ), js.length = ps.length →
    (∀ p ∈ js.zip ps, p.1 < p.2) → unflatten ps (flattenIdx ps js) = js
  | [], [], _, _ => rfl
  | [], j :: js, h, _ => by simp at h
  | p :: ps, [], h, _ => by simp at h
  | p :: ps, j :: js, h, hb => by
      have hrest : flattenIdx ps js < ps.prod := flattenIdx_lt ps js (by simpa using h)
        (fun pr hpr => hb pr (by simp [hpr]))
      have hP : 0 < ps.prod := by omega
      show (j * ps.prod + flattenIdx ps js) / ps.prod
          :: unflatten ps ((j * ps.prod + flattenIdx ps js) % ps.prod) = j :: js
      have hdiv : (j * ps.prod + flattenIdx ps js) / ps.prod = j := by
        rw [Nat.mul_comm, Nat.mul_add_div hP, Nat.div_eq_of_lt hrest, Nat.add_zero]
      have hmod : (j * ps.prod + flattenIdx ps js) % ps.prod = flattenIdx ps js := by
        rw [Nat.mul_comm, Nat.mul_add_mod]
        exact Nat.mod_eq_of_lt hrest
      rw [hdiv, hmod, unflatten_flattenIdx ps js (by simpa using h)
        (fun pr hpr => hb pr (by simp [hpr]))]

theorem rowFlat_eq_flattenIdx : ∀ (ps : List ℕ) (js : List ℤ), js.length = ps.length →
    (∀ j ∈ js, 0 ≤ j) →
    rowFlat ps js = ((flattenIdx ps (js.map Int.toNat) : ℕ) : ℤ)
  | [], [], _, _ => rfl
  | [], j :: js, h, _ => by simp at h
  | p :: ps, [], h, _ => by simp at h
  | p :: ps, j :: js, h, hnn => by
      rw [rowFlat_cons, List.map_cons]
      show _ = ((j.toNat * ps.prod + flattenIdx ps (js.map Int.toNat) : ℕ) : ℤ)
      rw [rowFlat_eq_flattenIdx ps js (by simpa using h) fun x hx => hnn x (by simp [hx])]
      push_cast
      rw [Int.toNat_of_nonneg (hnn j (by simp))]

theorem meshCoord_rowFlat (g : Grid) (k : ℕ) (js : List ℤ)
    (hlen : js.length = g.length)
    (hb : ∀ p ∈ js.zip (paddedRes g k), 0 ≤ p.1 ∧ p.1 < (p.2 : ℤ)) :
    meshCoord g k (rowFlat (paddedRes g k) js).toNat = nodeCoords g k js := by
  have hpl : (paddedRes g k).length = g.length := by simp [paddedRes]
  have hlen2 : js.length = (paddedRes g k).length := by rw [hpl, hlen]
  have hnn : ∀ j ∈ js, 0 ≤ j :=
    forall_mem_of_zip (fun j => 0 ≤ j) js (paddedRes g k) hlen2 fun p hp => (hb p hp).1
  have hflat := rowFlat_eq_flattenIdx (paddedRes g k) js hlen2 hnn
  have hmap : (js.map Int.toNat).length = (paddedRes g k).length := by
    rw [List.length_map]
    exact hlen2
  have hlt : ∀ p ∈ (js.map Int.toNat).zip (paddedRes g k), p.1 < p.2 := by
    intro p hp
    rw [List.zip_map_left] at hp
    obtain ⟨⟨j, r⟩, hpr, rfl⟩ := List.mem_map.mp hp
    have := hb (j, r) hpr
    simp only [Prod.map, id] at *
    omega
  have huf : unflatten (paddedRes g k) (rowFlat (paddedRes g k) js).toNat
      = js.map Int.toNat := by
    rw [hflat, Int.toNat_natCast]
    exact unflatten_flattenIdx _ _ hmap hlt
  unfold meshCoord nodeCoords
  rw [huf, List.zipWith_map_right]
  apply zipWith_congr_prop
  intro j hj a
  have hjn : 0 ≤ j := hnn j hj
  rw [show ((j.toNat : ℕ) : ℚ) = ((j : ℤ) : ℚ) from by exact_mod_cast Int.toNat_of_nonneg hjn]

/-- Decomposition of the padded-and-reshaped context accessor: element
`ch * N + f` of the `[1, channels, nodes]` view reads the caller's data at
the `k`-shifted multi-index when node `f` is interior, and the zero fill
on the `k`-wide borders. -/
theorem paddedCtxFlat_decompose (ctx : CtxGrid) (g : Grid) (k : ℕ)
    (hsh : ctx.shape = g.map fun a => a.res) (ch f : ℕ)
    (hf : f < nrGridPoints g k) :
    paddedCtxFlat ctx g.length k (ch * nrGridPoints g k + f)
      = if ∀ p ∈ (unflatten (paddedRes g k) f).zip (g.map fun a => a.res),
            k ≤ p.1 ∧ p.1 < p.2 + k
        then ctx.data (ch :: (unflatten (paddedRes g k) f).map fun j => j - k)
        else 0 := by
  have hN : 0 < nrGridPoints g k := Nat.pos_of_ne_zero (by omega)
  have hshl : ctx.shape.length = g.length := by rw [hsh]; simp
  have hpad : padLastShape (ctx.channels :: ctx.shape) g.length k
      = ctx.channels :: paddedRes g k := by
    rw [← hshl, padLastShape_wellshaped, paddedRes_eq_map, hsh]
  have hprod : (paddedRes g k).prod = nrGridPoints g k := rfl
  have hdiv : (ch * nrGridPoints g k + f) / nrGridPoints g k = ch := by
    rw [Nat.mul_comm, Nat.mul_add_div hN, Nat.div_eq_of_lt hf, Nat.add_zero]
  have hmod : (ch * nrGridPoints g k + f) % nrGridPoints g k = f := by
    rw [Nat.mul_comm, Nat.mul_add_mod]
    exact Nat.mod_eq_of_lt hf
  simp only [paddedCtxFlat]
  rw [hpad]
  simp only [unflatten, hprod, hdiv, hmod, List.length_cons]
  have hdrop : ∀ x : ℕ, (x :: unflatten (paddedRes g k) f).drop
      (ctx.shape.length + 1 - g.length) = unflatten (paddedRes g k) f := by
    intro x
    rw [hshl]
    simp
  have htake : ∀ x : ℕ, (x :: unflatten (paddedRes g k) f).take
      (ctx.shape.length + 1 - g.length) = [x] := by
    intro x
    rw [hshl]
    simp [List.take_succ_cons, Nat.sub_self]
  rw [hdrop, htake]
  have hosuf : (ctx.channels :: ctx.shape).drop (ctx.shape.length + 1 - g.length)
      = g.map fun a => a.res := by
    rw [hshl]
    simp [hsh]
  rw [hosuf]
  rfl



theorem ctxRow_rowFlat (ctx : CtxGrid) (g : Grid) (k : ℕ) (js : List ℤ)
    (hsh : ctx.shape = g.map fun a => a.res)
    (hlen : js.length = g.length)
    (hb : ∀ p ∈ js.zip (paddedRes g k), 0 ≤ p.1 ∧ p.1 < (p.2 : ℤ)) :
    ctxRow ctx g.length k (nrGridPoints g k) (rowFlat (paddedRes g k) js).toNat
      = valOf ctx g k js := by
  have hpl : (paddedRes g k).length = g.length := by simp [paddedRes]
  have hlen2 : js.length = (paddedRes g k).length := by rw [hpl, hlen]
  have hnn : ∀ j ∈ js, 0 ≤ j :=
    forall_mem_of_zip (fun j => 0 ≤ j) js (paddedRes g k) hlen2 fun p hp => (hb p hp).1
  have hflat := rowFlat_eq_flattenIdx (paddedRes g k) js hlen2 hnn
  have hmap : (js.map Int.toNat).length = (paddedRes g k).length := by
    rw [List.length_map]
    exact hlen2
  have hlt : ∀ p ∈ (js.map Int.toNat).zip (paddedRes g k), p.1 < p.2 := by
    intro p hp
    rw [List.zip_map_left] at hp
    obtain ⟨⟨j, r⟩, hpr, rfl⟩ := List.mem_map.mp hp
    have := hb (j, r) hpr
    simp only [Prod.map, id] at *
    omega
  have huf : unflatten (paddedRes g k) (rowFlat (paddedRes g k) js).toNat
      = js.map Int.toNat := by
    rw [hflat, Int.toNat_natCast]
    exact unflatten_flattenIdx _ _ hmap hlt
  have hfb := rowFlat_bounds (paddedRes g k) js hlen2 hb
  have hfN : (rowFlat (paddedRes g k) js).toNat < nrGridPoints g k := by
    have := hfb.2
    unfold nrGridPoints
    omega
  unfold ctxRow valOf
  apply List.map_congr_left
  intro ch _
  rw [paddedCtxFlat_decompose ctx g k hsh ch _ hfN, huf]
  have hcond : (∀ p ∈ (js.map Int.toNat).zip (g.map fun a => a.res),
        k ≤ p.1 ∧ p.1 < p.2 + k)
      ↔ (∀ p ∈ js.zip (g.map fun a => (a.res : ℤ)), (k : ℤ) ≤ p.1 ∧ p.1 < p.2 + k) := by
    rw [List.zip_map, List.zip_map_right]
    constructor
    · intro h p hp
      obtain ⟨⟨j, a⟩, hpr, rfl⟩ := List.mem_map.mp hp
      have := h (Prod.map Int.toNat (fun a => a.res) (j, a)) (List.mem_map.mpr ⟨(j, a), hpr, rfl⟩)
      have hjn : 0 ≤ j := hnn j (List.of_mem_zip hpr).1
      simp only [Prod.map, id] at *
      omega
    · intro h p hp
      obtain ⟨⟨j, a⟩, hpr, rfl⟩ := List.mem_map.mp hp
      have := h (Prod.map id (fun a : Axis => (a.res : ℤ)) (j, a)) (List.mem_map.mpr ⟨(j, a), hpr, rfl⟩)
      have hjn : 0 ≤ j := hnn j (List.of_mem_zip hpr).1
      simp only [Prod.map, id] at *
      omega
  have hdata : ((js.map Int.toNat).map fun j => j - k)
      = js.map fun j => (j - (k : ℤ)).toNat := by
    rw [List.map_map]
    apply List.map_congr_left
    intro j hj
    have := hnn j hj
    simp only [Function.comp]
    omega
  rw [if_congr hcond (by rw [hdata]) rfl]

theorem interpPre_eval (mem : Bool) (g : Grid) (ctx : CtxGrid) (q : List ℚ) (S : ℕ)
    (hd : g.length = 1 ∨ g.length = 2 ∨ g.length = 3)
    (hsh : ctx.shape = g.map fun a => a.res)
    (hq : q.length = g.length)
    (hin : ∀ p ∈ (centerIdx q g S).zip (paddedRes g (S / 2)), ∀ o ∈ idx_add S,
        0 ≤ p.1 + o ∧ p.1 + o < (p.2 : ℤ)) :
    interpPre mem g ctx q S
      = .ok ((specSlots S (centerIdx q g S)).map (distOf q g (S / 2)),
             (specSlots S (centerIdx q g S)).map (valOf ctx g (S / 2))) := by
  have hshl : ctx.shape.length = g.length := by rw [hsh]; simp
  have hcl : (centerIdx q g S).length = g.length := centerIdx_length q g S hq
  have hpl : (paddedRes g (S / 2)).length = g.length := by simp [paddedRes]
  have hb : ∀ js ∈ specSlots S (centerIdx q g S),
      ∀ p ∈ js.zip (paddedRes g (S / 2)), 0 ≤ p.1 ∧ p.1 < (p.2 : ℤ) :=
    specSlots_bounds _ _ hin
  have hjlen : ∀ js ∈ specSlots S (centerIdx q g S), js.length = g.length := by
    intro js hjs
    rw [specSlots_len _ js hjs, hcl]
  have hflat : ∀ i ∈ (specSlots S (centerIdx q g S)).map (rowFlat (paddedRes g (S / 2))),
      0 ≤ i ∧ i < ((nrGridPoints g (S / 2) : ℕ) : ℤ) := by
    intro i hi
    obtain ⟨js, hjs, rfl⟩ := List.mem_map.mp hi
    exact rowFlat_bounds _ js (by rw [hjlen js hjs, hpl]) (hb js hjs)
  unfold interpPre
  rw [if_pos (by omega), if_pos (reshape_check_wellshaped g ctx _ hsh),
    grid_knn_idx_aligned q g S hq, knnWindow_eq_spec g S (S / 2) _ (by rw [hcl]) hd,
    except_bind_okE, gatherE_ok mem _ _ _ hflat, except_bind_okE]
  rw [List.map_map,
    show ((fun i : ℤ => meshCoord g (S / 2) i.toNat) ∘ rowFlat (paddedRes g (S / 2)))
      = fun js => meshCoord g (S / 2) (rowFlat (paddedRes g (S / 2)) js).toNat from rfl]
  rw [List.map_congr_left fun js hjs =>
    meshCoord_rowFlat g (S / 2) js (hjlen js hjs) (hb js hjs)]
  rw [mapMO_some (fun mv => bcast2 (· - ·) q mv) (fun mv => List.zipWith (· - ·) q mv) _
    (fun mv hmv => by
      obtain ⟨js, hjs, rfl⟩ := List.mem_map.mp hmv
      apply bcast2_eq_of_len
      rw [hq]
      unfold nodeCoords
      rw [List.length_zipWith, hjlen js hjs]
      simp)]
  show Except.ok _ >>= _ = _
  rw [except_bind_okE, gatherE_ok mem _ _ _ hflat, except_bind_okE, List.map_map]
  refine congrArg Except.ok (Prod.ext ?_ ?_)
  · dsimp only
    apply List.map_congr_left
    intro js hjs
    rfl
  · dsimp only
    rw [List.map_map]
    apply List.map_congr_left
    intro js hjs
    exact ctxRow_rowFlat ctx g (S / 2) js hsh (hjlen js hjs) (hb js hjs)

theorem getD0_of_ne_nil {α : Type} (l l' : List α) (d : α) (h : l ≠ []) :
    (l ++ l').getD 0 d = l.getD 0 d := by
  cases l
  · exact absurd rfl h
  · rfl

theorem getD0_map_of_ne_nil {α β : Type} (f : α → β) (l : List α) (d : β) (d' : α)
    (h : l ≠ []) : (l.map f).getD 0 d = f (l.getD 0 d') := by
  cases l
  · exact absurd rfl h
  · rfl

theorem getLastD_append_of_ne_nil {α : Type} (l l' : List α) (d : α) (h : l' ≠ []) :
    (l ++ l').getLastD d = l'.getLastD d := by
  rw [List.getLastD_eq_getLast?, List.getLastD_eq_getLast?, List.getLast?_append]
  rcases h2 : l'.getLast? with _ | x
  · exact absurd (List.getLast?_eq_none_iff.mp h2) h
  · rfl

theorem getLastD_map_of_ne_nil {α β : Type} (f : α → β) (l : List α) (d : β) (d' : α)
    (h : l ≠ []) : (l.map f).getLastD d = f (l.getLastD d') := by
  induction l with
  | nil => exact absurd rfl h
  | cons a t ih =>
      rcases t with _ | ⟨b, t'⟩
      · rfl
      · simpa using ih (by simp)

theorem idx_add_ne_nil (S : ℕ) (hS : 1 ≤ S) : idx_add S ≠ [] := by
  intro h
  have := congrArg List.length h
  simp [idx_add] at this
  omega

theorem idx_add_getD0 (S : ℕ) (hS : 1 ≤ S) :
    (idx_add S).getD 0 0 = -(((S - 1) / 2 : ℕ) : ℤ) := by
  obtain ⟨n, rfl⟩ := Nat.exists_eq_add_of_le hS
  simp [idx_add, List.range_succ_eq_map]

theorem idx_add_split (S : ℕ) (hS : 1 ≤ S) :
    idx_add S = (List.range (S - 1)).map
        (fun j : ℕ => (j : ℤ) - (((S - 1) / 2 : ℕ) : ℤ))
      ++ [((S / 2 : ℕ) : ℤ)] := by
  obtain ⟨n, rfl⟩ := Nat.exists_eq_add_of_le hS
  rw [idx_add, show 1 + n = n + 1 from by omega, List.range_succ, List.map_append]
  simp only [List.map_cons, List.map_nil, Nat.add_sub_cancel]
  congr 1
  congr 1
  omega

theorem specSlots_ne_nil (S : ℕ) (hS : 1 ≤ S) : ∀ cs : List ℤ, specSlots S cs ≠ []
  | [], h => by simp [specSlots] at h
  | c :: cs, h => by
      rw [specSlots_cons] at h
      rcases hi : idx_add S with _ | ⟨o, t⟩
      · exact idx_add_ne_nil S hS hi
      · rw [hi, List.flatMap_cons] at h
        have h2 := List.append_eq_nil.mp h
        exact specSlots_ne_nil S hS cs (List.map_eq_nil_iff.mp h2.1)

theorem specSlots_head (S : ℕ) (hS : 1 ≤ S) :
    ∀ cs : List ℤ, (specSlots S cs).getD 0 []
      = cs.map fun c => c + (idx_add S).getD 0 0
  | [] => by simp [specSlots]
  | c :: cs => by
      rw [specSlots_cons]
      rcases hi : idx_add S with _ | ⟨o, t⟩
      · exact absurd hi (idx_add_ne_nil S hS)
      · rw [List.flatMap_cons,
          getD0_of_ne_nil _ _ _ (by
            intro hmap
            exact specSlots_ne_nil S hS cs (List.map_eq_nil_iff.mp hmap)),
          getD0_map_of_ne_nil _ _ _ [] (specSlots_ne_nil S hS cs),
          specSlots_head S hS cs, hi]
        simp

theorem specSlots_last (S : ℕ) (hS : 1 ≤ S) :
    ∀ cs : List ℤ, (specSlots S cs).getLastD []
      = cs.map fun c => c + ((S / 2 : ℕ) : ℤ)
  | [] => by simp [specSlots]
  | c :: cs => by
      rw [specSlots_cons, idx_add_split S hS, List.flatMap_append, List.flatMap_cons,
        List.flatMap_nil, List.append_nil,
        getLastD_append_of_ne_nil _ _ _ (by
          intro hmap
          exact specSlots_ne_nil S hS cs (List.map_eq_nil_iff.mp hmap)),
        getLastD_map_of_ne_nil _ _ _ [] (specSlots_ne_nil S hS cs),
        specSlots_last S hS cs]
      simp

theorem clip01_nonneg (x : ℚ) : 0 ≤ clip01 x := by
  simp only [clip01, le_min_iff]
  constructor
  · exact le_max_right x 0
  · norm_num

theorem clip01_eq_self {x : ℚ} (h0 : 0 ≤ x) (h1 : x ≤ 1) : clip01 x = x := by
  simp only [clip01]
  rw [max_eq_left h0, min_eq_left h1]

theorem clip01_add_eq_one {x y : ℚ} (h : x + y = 1) : clip01 x + clip01 y = 1 := by
  simp only [clip01, min_def, max_def]
  split_ifs <;> linarith

theorem smooth_step_1_pair (s : ℚ) : smooth_step_1 s + smooth_step_1 (1 - s) = 1 :=
  clip01_add_eq_one (by ring)

theorem smooth_step_2_pair (s : ℚ) : smooth_step_2 s + smooth_step_2 (1 - s) = 1 :=
  clip01_add_eq_one (by ring)

theorem sum_flatMap_two (u l : ℚ) :
    ∀ acc : List ℚ, (acc.flatMap fun w => [w * u, w * l]).sum = acc.sum * (u + l)
  | [] => by simp
  | a :: acc => by
      rw [List.flatMap_cons, List.sum_append, sum_flatMap_two u l acc]
      simp
      ring

theorem length_flatMap_two (u l : ℚ) :
    ∀ acc : List ℚ, (acc.flatMap fun w => [w * u, w * l]).length = 2 * acc.length
  | [] => by simp
  | a :: acc => by
      rw [List.flatMap_cons, List.length_append, length_flatMap_two u l acc]
      simp
      omega

theorem mem_flatMap_two {u l : ℚ} {acc : List ℚ} {x : ℚ}
    (hx : x ∈ acc.flatMap fun w => [w * u, w * l]) :
    ∃ w ∈ acc, x = w * u ∨ x = w * l := by
  obtain ⟨w, hw, hx'⟩ := List.mem_flatMap.mp hx
  exact ⟨w, hw, by simpa using hx'⟩

theorem hyperAux_sum : ∀ (ls us acc : List ℚ), ls.length = us.length →
    (hyperAux acc ls us).sum = acc.sum * (List.zipWith (· + ·) us ls).prod
  | [], [], acc, _ => by simp [hyperAux]
  | [], u :: us, acc, h => by simp at h
  | l :: ls, [], acc, h => by simp at h
  | l :: ls, u :: us, acc, h => by
      show (hyperAux (acc.flatMap fun w => [w * u, w * l]) ls us).sum = _
      rw [hyperAux_sum ls us _ (by simpa using h), sum_flatMap_two,
        List.zipWith_cons_cons, List.prod_cons]
      ring

theorem hyperAux_length : ∀ (ls us acc : List ℚ), ls.length = us.length →
    (hyperAux acc ls us).length = acc.length * 2 ^ ls.length
  | [], [], acc, _ => by simp [hyperAux]
  | [], u :: us, acc, h => by simp at h
  | l :: ls, [], acc, h => by simp at h
  | l :: ls, u :: us, acc, h => by
      show (hyperAux (acc.flatMap fun w => [w * u, w * l]) ls us).length = _
      rw [hyperAux_length ls us _ (by simpa using h), length_flatMap_two]
      simp
      ring

theorem hyperAux_nonneg : ∀ (ls us acc : List ℚ), (∀ x ∈ acc, 0 ≤ x) →
    (∀ x ∈ ls, 0 ≤ x) → (∀ x ∈ us, 0 ≤ x) → ∀ w ∈ hyperAux acc ls us, 0 ≤ w
  | [], us, acc, ha, _, _ => by
      cases us <;> simpa [hyperAux] using ha
  | l :: ls, [], acc, ha, _, _ => by simpa [hyperAux] using ha
  | l :: ls, u :: us, acc, ha, hl, hu => by
      show ∀ w ∈ hyperAux (acc.flatMap fun w => [w * u, w * l]) ls us, 0 ≤ w
      apply hyperAux_nonneg ls us _ ?_ (fun x hx => hl x (by simp [hx]))
        (fun x hx => hu x (by simp [hx]))
      intro x hx
      obtain ⟨w, hw, hcase⟩ := mem_flatMap_two hx
      rcases hcase with rfl | rfl
      · exact mul_nonneg (ha w hw) (hu u (by simp))
      · exact mul_nonneg (ha w hw) (hl l (by simp))

theorem hyper_cube_sum (lo up : List ℚ) (hlen : lo.length = up.length)
    (hne : lo ≠ []) :
    (hyper_cube_weighting lo up).sum = (List.zipWith (· + ·) up lo).prod := by
  rcases lo with _ | ⟨l0, ls⟩
  · exact absurd rfl hne
  rcases up with _ | ⟨u0, us⟩
  · simp at hlen
  show (hyperAux [u0, l0] ls us).sum = _
  rw [hyperAux_sum ls us _ (by simpa using hlen), List.zipWith_cons_cons, List.prod_cons]
  simp
  try ring

theorem hyper_cube_length (lo up : List ℚ) (hlen : lo.length = up.length)
    (hne : lo ≠ []) :
    (hyper_cube_weighting lo up).length = 2 ^ lo.length := by
  rcases lo with _ | ⟨l0, ls⟩
  · exact absurd rfl hne
  rcases up with _ | ⟨u0, us⟩
  · simp at hlen
  show (hyperAux [u0, l0] ls us).length = _
  rw [hyperAux_length ls us _ (by simpa using hlen)]
  simp
  try ring

theorem hyper_cube_nonneg (lo up : List ℚ) (hlo : ∀ x ∈ lo, 0 ≤ x)
    (hup : ∀ x ∈ up, 0 ≤ x) : ∀ w ∈ hyper_cube_weighting lo up, 0 ≤ w := by
  rcases lo with _ | ⟨l0, ls⟩
  · simp [hyper_cube_weighting]
  rcases up with _ | ⟨u0, us⟩
  · simp [hyper_cube_weighting]
  apply hyperAux_nonneg ls us _ ?_ (fun x hx => hlo x (by simp [hx]))
    (fun x hx => hup x (by simp [hx]))
  intro x hx
  rcases List.mem_pair.mp hx with h | h
  · rw [h]
    exact hup u0 (by simp)
  · rw [h]
    exact hlo l0 (by simp)

theorem sum_map_div (c : ℚ) : ∀ l : List ℚ, (l.map fun x => x / c).sum = l.sum / c
  | [] => by simp
  | a :: l => by
      rw [List.map_cons, List.sum_cons, List.sum_cons, sum_map_div c l]
      ring

theorem sum_map_divR (c : ℝ) : ∀ l : List ℝ, (l.map fun x => x / c).sum = l.sum / c
  | [] => by simp
  | a :: l => by
      rw [List.map_cons, List.sum_cons, List.sum_cons, sum_map_divR c l]
      ring

theorem dxAx_pos (a : Axis) (h2 : 2 ≤ a.res) (hlt : a.lo < a.hi) : 0 < dxAx a := by
  unfold dxAx
  apply div_pos (by linarith)
  have h : (2 : ℚ) ≤ (a.res : ℚ) := by exact_mod_cast h2
  linarith

theorem distOf_cons (q0 : ℚ) (q : List ℚ) (a : Axis) (g : Grid) (k : ℕ) (c : ℤ)
    (cs : List ℤ) :
    distOf (q0 :: q) (a :: g) k (c :: cs)
      = (q0 - ((a.lo - (k : ℚ) * dxAx a) + (c : ℚ) * dxAx a)) :: distOf q g k cs := rfl

theorem dxs_cons (a : Axis) (g : Grid) : dxs (a :: g) = dxAx a :: dxs g := rfl

theorem kernel_factors (f : ℚ → ℚ) (hf : ∀ s : ℚ, f s + f (1 - s) = 1) :
    ∀ (g : Grid) (q : List ℚ) (cs : List ℤ),
    q.length = g.length → cs.length = g.length →
    (∀ a ∈ g, 2 ≤ a.res ∧ a.lo < a.hi) →
    ∀ k : ℕ,
    List.zipWith (· + ·)
      ((List.zipWith (· / ·) (distOf q g k (cs.map fun c => c + 1)) (dxs g)).map
        fun x => f (-x))
      ((List.zipWith (· / ·) (distOf q g k cs) (dxs g)).map f)
    = List.replicate g.length 1
  | [], [], [], _, _, _, k => by simp [distOf, dxs]
  | [], q0 :: q, cs, hq, _, _, k => by simp at hq
  | [], [], c :: cs, _, hcs, _, k => by simp at hcs
  | a :: g, [], cs, hq, _, _, k => by simp at hq
  | a :: g, q0 :: q, [], _, hcs, _, k => by simp at hcs
  | a :: g, q0 :: q, c :: cs, hq, hcs, hok, k => by
      have hdx : dxAx a ≠ 0 :=
        ne_of_gt (dxAx_pos a (hok a (by simp)).1 (hok a (by simp)).2)
      rw [List.map_cons, distOf_cons, dxs_cons, List.zipWith_cons_cons, List.map_cons,
        distOf_cons, List.zipWith_cons_cons, List.map_cons, List.zipWith_cons_cons,
        List.length_cons, List.replicate_succ]
      congr 1
      · have key : -((q0 - ((a.lo - (k : ℚ) * dxAx a) + ((c : ℚ) + 1) * dxAx a)) / dxAx a)
            = 1 - (q0 - ((a.lo - (k : ℚ) * dxAx a) + (c : ℚ) * dxAx a)) / dxAx a := by
          field_simp
          ring
        push_cast
        rw [key]
        have := hf ((q0 - ((a.lo - (k : ℚ) * dxAx a) + (c : ℚ) * dxAx a)) / dxAx a)
        linarith
      · exact kernel_factors f hf g q cs (by simpa using hq) (by simpa using hcs)
          (fun x hx => hok x (by simp [hx])) k

theorem stepOf_pair (t : KernelType)
    (ht : t = .linear ∨ t = .smooth_step_1 ∨ t = .smooth_step_2) (s : ℚ) :
    stepOf t s + stepOf t (1 - s) = 1 := by
  rcases ht with rfl | rfl | rfl
  · show s + (1 - s) = 1
    ring
  · exact smooth_step_1_pair s
  · exact smooth_step_2_pair s

theorem algWeight_hyper (t : KernelType)
    (ht : t = .linear ∨ t = .smooth_step_1 ∨ t = .smooth_step_2)
    (dv : List (List ℚ)) (dx : List ℚ)
    (h0 : (dv.getD 0 []).length = dx.length) (hL : (dv.getLastD []).length = dx.length) :
    algWeight t dv dx = some (hyper_cube_weighting
      ((List.zipWith (· / ·) (dv.getD 0 []) dx).map (stepOf t))
      (((List.zipWith (· / ·) (dv.getLastD []) dx).map fun x => -x).map (stepOf t))) := by
  rcases ht with rfl | rfl | rfl
  · show linear_weighting dv dx = _
    unfold linear_weighting
    rw [bcast2_eq_of_len _ _ _ h0, bcast2_eq_of_len _ _ _ hL]
    show some _ = some _
    simp [stepOf]
  · show smooth_step_1_weighting dv dx = _
    unfold smooth_step_1_weighting
    rw [bcast2_eq_of_len _ _ _ h0, bcast2_eq_of_len _ _ _ hL]
    rfl
  · show smooth_step_2_weighting dv dx = _
    unfold smooth_step_2_weighting
    rw [bcast2_eq_of_len _ _ _ h0, bcast2_eq_of_len _ _ _ hL]
    rfl

theorem dxs_length (g : Grid) : (dxs g).length = g.length := by simp [dxs]

theorem nodeCoords_length (g : Grid) (k : ℕ) (js : List ℤ) :
    (nodeCoords g k js).length = min g.length js.length := by
  simp [nodeCoords]

theorem distOf_length (q : List ℚ) (g : Grid) (k : ℕ) (js : List ℤ) :
    (distOf q g k js).length = min q.length (min g.length js.length) := by
  simp [distOf, nodeCoords_length]

theorem strideFrac_two : strideFrac 2 = 0 := by
  norm_num [strideFrac]

theorem centerIdx_cons (q0 : ℚ) (q : List ℚ) (a : Axis) (g : Grid) (S : ℕ) :
    centerIdx (q0 :: q) (a :: g) S
      = truncQ ((q0 - (if true then a.lo - ((S / 2 : ℕ) : ℚ) * dxAx a else a.lo))
          / dxAx a + strideFrac S) :: centerIdx q g S := rfl

theorem gridStarts_cons_true (a : Axis) (g : Grid) (k : ℕ) :
    gridStarts (a :: g) k true = (a.lo - (k : ℚ) * dxAx a) :: gridStarts g k true := by
  simp [gridStarts]

theorem fract_axis_bound (dx st q0 : ℚ) (hdx : 0 < dx) (hst : st ≤ q0) :
    0 ≤ (q0 - (st + ((truncQ ((q0 - st) / dx + strideFrac 2) : ℤ) : ℚ) * dx)) / dx ∧
    (q0 - (st + ((truncQ ((q0 - st) / dx + strideFrac 2) : ℤ) : ℚ) * dx)) / dx < 1 := by
  set v := (q0 - st) / dx with hv
  have hv0 : 0 ≤ v := div_nonneg (by linarith) (le_of_lt hdx)
  rw [strideFrac_two, add_zero, truncQ_of_nonneg v hv0]
  have hexp : (q0 - (st + ((⌊v⌋ : ℤ) : ℚ) * dx)) / dx = v - ⌊v⌋ := by
    rw [hv]
    field_simp
    ring
  rw [hexp]
  constructor
  · have := Int.floor_le v
    linarith
  · have := Int.lt_floor_add_one v
    linarith

theorem center_fract_bounds :
    ∀ (g : Grid) (q : List ℚ), q.length = g.length →
    (∀ a ∈ g, 2 ≤ a.res ∧ a.lo < a.hi) →
    (∀ p ∈ q.zip (gridStarts g 1 true), p.2 ≤ p.1) →
    ∀ x ∈ List.zipWith (· / ·) (distOf q g 1 (centerIdx q g 2)) (dxs g),
      0 ≤ x ∧ x < 1
  | [], [], _, _, _ => by simp [distOf, dxs]
  | [], q0 :: q, hq, _, _ => by simp at hq
  | a :: g, [], hq, _, _ => by simp at hq
  | a :: g, q0 :: q, hq, hok, hlow => by
      intro x hx
      have hdxp : 0 < dxAx a := dxAx_pos a (hok a (by simp)).1 (hok a (by simp)).2
      rw [centerIdx_cons, distOf_cons, dxs_cons, List.zipWith_cons_cons] at hx
      rcases List.mem_cons.mp hx with rfl | hx'
      · have hst : a.lo - dxAx a ≤ q0 := by
          have := hlow (q0, a.lo - (1 : ℚ) * dxAx a)
            (by rw [gridStarts_cons_true]; simp)
          simpa using this
        have hmain := fract_axis_bound (dxAx a) (a.lo - dxAx a) q0 hdxp hst
        simp only [if_true]
        norm_num
        convert hmain using 4
      · exact center_fract_bounds g q (by simpa using hq)
          (fun b hb => hok b (by simp [hb]))
          (fun p hp => hlow p (by rw [gridStarts_cons_true]; simp [hp])) x hx'

theorem upper_from_sum : ∀ (U L : List ℚ) (n : ℕ),
    List.zipWith (· + ·) U L = List.replicate n 1 →
    U.length = n → L.length = n →
    (∀ x ∈ L, 0 ≤ x ∧ x < 1) → ∀ x ∈ U, 0 < x ∧ x ≤ 1
  | [], _, _, _, _, _, _ => by simp
  | u :: U, [], n, hsum, hU, hL, _ => by
      rw [← hL] at hU
      simp at hU
  | u :: U, l :: L, 0, hsum, hU, hL, _ => by simp at hU
  | u :: U, l :: L, n + 1, hsum, hU, hL, hbnd => by
      rw [List.zipWith_cons_cons, List.replicate_succ] at hsum
      have hhead : u + l = 1 := (List.cons.inj hsum).1
      have htail := (List.cons.inj hsum).2
      intro x hx
      rcases List.mem_cons.mp hx with rfl | hx'
      · have := hbnd l (by simp)
        constructor <;> linarith [this.1, this.2]
      · exact upper_from_sum U L n htail (by simpa using hU) (by simpa using hL)
          (fun y hy => hbnd y (by simp [hy])) x hx'

/-- Window-distance list fed to the stride-2 weighting functions. -/
theorem hyper_weights_eval (t : KernelType)
    (ht : t = .linear ∨ t = .smooth_step_1 ∨ t = .smooth_step_2)
    (g : Grid) (q : List ℚ) (cs : List ℤ)
    (hq : q.length = g.length) (hcs : cs.length = g.length) (hg : g ≠ [])
    (hok : ∀ a ∈ g, 2 ≤ a.res ∧ a.lo < a.hi) :
    algWeight t ((specSlots 2 cs).map (distOf q g 1)) (dxs g)
      = some (hyper_cube_weighting
          ((List.zipWith (· / ·) (distOf q g 1 cs) (dxs g)).map (stepOf t))
          (((List.zipWith (· / ·) (distOf q g 1 (cs.map fun c => c + 1)) (dxs g)).map
              fun x => -x).map (stepOf t)))
      ∧ (hyper_cube_weighting
          ((List.zipWith (· / ·) (distOf q g 1 cs) (dxs g)).map (stepOf t))
          (((List.zipWith (· / ·) (distOf q g 1 (cs.map fun c => c + 1)) (dxs g)).map
              fun x => -x).map (stepOf t))).sum = 1
      ∧ (hyper_cube_weighting
          ((List.zipWith (· / ·) (distOf q g 1 cs) (dxs g)).map (stepOf t))
          (((List.zipWith (· / ·) (distOf q g 1 (cs.map fun c => c + 1)) (dxs g)).map
              fun x => -x).map (stepOf t))).length = 2 ^ g.length := by
  have hS1 : (1 : ℕ) ≤ 2 := by omega
  have hd0 : ((specSlots 2 cs).map (distOf q g 1)).getD 0 [] = distOf q g 1 cs := by
    rw [getD0_map_of_ne_nil _ _ _ [] (specSlots_ne_nil 2 hS1 cs), specSlots_head 2 hS1,
      show (idx_add 2).getD 0 0 = 0 from by decide]
    simp
  have hdL : ((specSlots 2 cs).map (distOf q g 1)).getLastD []
      = distOf q g 1 (cs.map fun c => c + 1) := by
    rw [getLastD_map_of_ne_nil _ _ _ [] (specSlots_ne_nil 2 hS1 cs), specSlots_last 2 hS1]
    norm_num
  have hlen0 : (distOf q g 1 cs).length = (dxs g).length := by
    rw [distOf_length, dxs_length, hq, hcs]
    simp
  have hlenL : (distOf q g 1 (cs.map fun c => c + 1)).length = (dxs g).length := by
    rw [distOf_length, dxs_length, hq]
    simp [hcs]
  have halg := algWeight_hyper t ht _ (dxs g) (by rw [hd0]; exact hlen0)
    (by rw [hdL]; exact hlenL)
  rw [hd0, hdL] at halg
  set L := (List.zipWith (· / ·) (distOf q g 1 cs) (dxs g)).map (stepOf t) with hLdef
  set U := ((List.zipWith (· / ·) (distOf q g 1 (cs.map fun c => c + 1)) (dxs g)).map
    fun x => -x).map (stepOf t) with hUdef
  have hLlen : L.length = g.length := by
    rw [hLdef, List.length_map, List.length_zipWith, hlen0, dxs_length]
    simp
  have hLne : L ≠ [] := by
    intro h
    rw [h] at hLlen
    exact hg (List.length_eq_zero.mp hLlen.symm)
  have hULlen : L.length = U.length := by
    rw [hLlen, hUdef, List.length_map, List.length_map, List.length_zipWith, hlenL,
      dxs_length]
    simp
  have hfac : List.zipWith (· + ·) U L = List.replicate g.length 1 := by
    rw [hUdef, hLdef, List.map_map]
    exact kernel_factors (stepOf t) (stepOf_pair t ht) g q cs hq hcs hok 1
  refine ⟨halg, ?_, ?_⟩
  · rw [hyper_cube_sum L U hULlen hLne, hfac]
    simp
  · rw [hyper_cube_length L U hULlen hLne, hLlen]

theorem hyper_weights_nonneg (t : KernelType)
    (ht : t = .linear ∨ t = .smooth_step_1 ∨ t = .smooth_step_2)
    (g : Grid) (q : List ℚ)
    (hq : q.length = g.length)
    (hok : ∀ a ∈ g, 2 ≤ a.res ∧ a.lo < a.hi)
    (hlow : ∀ p ∈ q.zip (gridStarts g 1 true), p.2 ≤ p.1) :
    ∀ x ∈ hyper_cube_weighting
        ((List.zipWith (· / ·) (distOf q g 1 (centerIdx q g 2)) (dxs g)).map (stepOf t))
        (((List.zipWith (· / ·) (distOf q g 1 ((centerIdx q g 2).map fun c => c + 1))
            (dxs g)).map fun x => -x).map (stepOf t)),
      0 ≤ x := by
  have hbnd := center_fract_bounds g q hq hok hlow
  rcases ht with rfl | rfl | rfl
  · simp only [stepOf, List.map_id]
    set L := List.zipWith (· / ·) (distOf q g 1 (centerIdx q g 2)) (dxs g) with hL
    set U := (List.zipWith (· / ·) (distOf q g 1 ((centerIdx q g 2).map fun c => c + 1))
      (dxs g)).map fun x => -x with hU
    have hcl : (centerIdx q g 2).length = g.length := centerIdx_length q g 2 hq
    have hLlen : L.length = g.length := by
      rw [hL, List.length_zipWith, distOf_length, dxs_length, hq, hcl]
      simp
    have hUlen : U.length = g.length := by
      rw [hU, List.length_map, List.length_zipWith, distOf_length, dxs_length, hq]
      simp [hcl]
    have hfac : List.zipWith (· + ·) U L = List.replicate g.length 1 := by
      have h := kernel_factors id (fun s => by simp) g q (centerIdx q g 2) hq hcl hok 1
      simpa using h
    have hupper := upper_from_sum U L g.length hfac hUlen hLlen hbnd
    apply hyper_cube_nonneg
    · intro x hx
      exact (hbnd x hx).1
    · intro x hx
      exact le_of_lt (hupper x hx).1
  · apply hyper_cube_nonneg <;>
      · intro x hx
        obtain ⟨y, _, rfl⟩ := List.mem_map.mp hx
        exact clip01_nonneg _
  · apply hyper_cube_nonneg <;>
      · intro x hx
        obtain ⟨y, _, rfl⟩ := List.mem_map.mp hx
        exact clip01_nonneg _

theorem forall_mem_zipWith {α β γ : Type} {f : α → β → γ} (P : γ → Prop)
    (hf : ∀ x y, P (f x y)) : ∀ (a : List α) (b : List β), ∀ z ∈ List.zipWith f a b, P z
  | [], _ => by simp
  | _ :: _, [] => by simp
  | x :: a, y :: b => by
      intro z hz
      rcases List.mem_cons.mp hz with rfl | hz'
      · exact hf x y
      · exact forall_mem_zipWith P hf a b z hz'

theorem gaussian_weighting_eval (dv : List (List ℚ)) (dx : List ℚ)
    (hlen : ∀ v ∈ dv, v.length = dx.length) (hne : dv ≠ [])
    (hdx : ∀ d ∈ dx, 0 < d) :
    ∃ w : List ℝ, gaussian_weighting dv dx = some w ∧ (∀ x ∈ w, 0 ≤ x) ∧ w.sum = 1
      ∧ w.length = dv.length := by
  simp only [gaussian_weighting]
  have hmap : mapMO (fun v => do
      let e ← bcast2 (fun a b => Real.exp (-(1 / 2) * (a / b) ^ 2))
        (v.map fun x : ℚ => (x : ℝ)) (dx.map fun d : ℚ => (d : ℝ) / 2)
      some ((1 : ℝ) / ((2 * Real.pi) ^ (((dx.length : ℕ) : ℝ) / 2)
          * (dx.map fun d : ℚ => (d : ℝ) / 2).prod) * e.prod)) dv
      = some (dv.map fun v =>
          (1 : ℝ) / ((2 * Real.pi) ^ (((dx.length : ℕ) : ℝ) / 2)
            * (dx.map fun d : ℚ => (d : ℝ) / 2).prod) *
          (List.zipWith (fun a b => Real.exp (-(1 / 2) * (a / b) ^ 2))
            (v.map fun x : ℚ => (x : ℝ)) (dx.map fun d : ℚ => (d : ℝ) / 2)).prod) := by
    apply mapMO_some
    intro v hv
    rw [bcast2_eq_of_len _ _ _ (by simp [hlen v hv])]
    rfl
  rw [hmap]
  set F : List ℚ → ℝ := fun v =>
    (1 : ℝ) / ((2 * Real.pi) ^ (((dx.length : ℕ) : ℝ) / 2)
      * (dx.map fun d : ℚ => (d : ℝ) / 2).prod) *
    (List.zipWith (fun a b => Real.exp (-(1 / 2) * (a / b) ^ 2))
      (v.map fun x : ℚ => (x : ℝ)) (dx.map fun d : ℚ => (d : ℝ) / 2)).prod with hF
  have hsigpos : ∀ s ∈ dx.map fun d : ℚ => (d : ℝ) / 2, 0 < s := by
    intro s hs
    obtain ⟨d, hd, rfl⟩ := List.mem_map.mp hs
    have := hdx d hd
    have : (0 : ℝ) < (d : ℚ) := by exact_mod_cast this
    positivity
  have hfacpos : 0 < (1 : ℝ) / ((2 * Real.pi) ^ (((dx.length : ℕ) : ℝ) / 2)
      * (dx.map fun d : ℚ => (d : ℝ) / 2).prod) := by
    apply div_pos one_pos
    apply mul_pos
    · exact Real.rpow_pos_of_pos (by positivity) _
    · exact List.prod_pos hsigpos
  have hFpos : ∀ v ∈ dv, 0 < F v := by
    intro v hv
    rw [hF]
    apply mul_pos hfacpos
    apply List.prod_pos
    exact forall_mem_zipWith _ (fun x y => Real.exp_pos _) _ _
  have hmne : dv.map F ≠ [] := by
    intro h
    exact hne (List.map_eq_nil_iff.mp h)
  have hSpos : 0 < (dv.map F).sum := by
    refine List.sum_pos _ ?_ hmne
    intro x hx
    obtain ⟨v, hv, rfl⟩ := List.mem_map.mp hx
    exact hFpos v hv
  refine ⟨_, rfl, ?_, ?_, ?_⟩
  · intro x hx
    obtain ⟨y, hy, rfl⟩ := List.mem_map.mp hx
    obtain ⟨v, hv, rfl⟩ := List.mem_map.mp hy
    exact le_of_lt (div_pos (hFpos v hv) hSpos)
  · rw [sum_map_divR]
    exact div_self (ne_of_gt hSpos)
  · simp

theorem interpolation_single_alg (mem : Bool) (t : KernelType) (g : Grid) (ctx : CtxGrid)
    (q : List ℚ) (ht : t ≠ .gaussian) (v : List ℚ)
    (h : interpAlg mem t g ctx q = .ok v) :
    interpolation [q] ctx g t mem = .ok [castRow v] := by
  have h1 : interpOne mem t g ctx q = .ok (castRow v) := by
    rw [interpOne_alg mem t g ctx q ht, h]
    rfl
  show mapME _ [q] = _
  simp only [mapME, h1, except_bind_okE]

theorem interpolation_single_error (mem : Bool) (t : KernelType) (g : Grid) (ctx : CtxGrid)
    (q : List ℚ) (e : InterpError) (h : interpOne mem t g ctx q = .error e) :
    interpolation [q] ctx g t mem = .error e := by
  simp only [interpolation, mapME, h, except_bind_errorE]

theorem interpOne_alg_error (mem : Bool) (t : KernelType) (g : Grid) (ctx : CtxGrid)
    (q : List ℚ) (e : InterpError) (ht : t ≠ .gaussian)
    (h : interpAlg mem t g ctx q = .error e) : interpOne mem t g ctx q = .error e := by
  rw [interpOne_alg mem t g ctx q ht, h]
  rfl

/-! ### Claim theorems -/

/-! ### Kernel-weight and reduction lemmas -/

theorem castRow_sum (v : List ℚ) : (castRow v).sum = (v.sum : ℝ) := by
  induction v with
  | nil => simp [castRow]
  | cons x v ih =>
      simp only [castRow, List.map_cons, List.sum_cons] at ih ⊢
      push_cast
      rw [ih]

theorem castRow_nonneg (v : List ℚ) (h : ∀ x ∈ v, 0 ≤ x) : ∀ x ∈ castRow v, 0 ≤ x := by
  intro x hx
  unfold castRow at hx
  obtain ⟨y, hy, rfl⟩ := List.mem_map.mp hx
  exact_mod_cast h y hy

theorem castRow_length (v : List ℚ) : (castRow v).length = v.length := by
  simp [castRow]

theorem castRow_getD (v : List ℚ) (i : ℕ) (hi : i < v.length) :
    (castRow v).getD i 0 = ((v.getD i 0 : ℚ) : ℝ) := by
  unfold castRow
  rw [List.getD_eq_getElem?_getD, List.getElem?_map, List.getD_eq_getElem?_getD,
    List.getElem?_eq_getElem hi]
  rfl

theorem getD_map_range {α : Type} (C i : ℕ) (f : ℕ → α) (d : α) (hi : i < C) :
    (((List.range C).map f).getD i d) = f i := by
  rw [List.getD_eq_getElem?_getD, List.getElem?_map, List.getElem?_range hi]
  rfl

theorem kernelWeights_alg (mem : Bool) (t : KernelType) (g : Grid) (ctx : CtxGrid)
    (q : List ℚ) (ht : t ≠ .gaussian) :
    kernelWeights mem t g ctx q = (kernelWeightsAlg mem t g ctx q).map castRow := by
  unfold kernelWeights kernelWeightsAlg
  cases hp : interpPre mem g ctx q (stride t) with
  | error e => rw [except_bind_errorE, except_bind_errorE, except_map_errorE]
  | ok p =>
      rw [except_bind_okE, except_bind_okE]
      cases t with
      | nearest_neighbor => rfl
      | linear => rfl
      | smooth_step_1 => rfl
      | smooth_step_2 => rfl
      | gaussian => exact absurd rfl ht

theorem specSlots_length (S : ℕ) : ∀ cs : List ℤ, (specSlots S cs).length = S ^ cs.length
  | [] => by simp [specSlots]
  | c :: cs => by
      show ((idx_add S).flatMap fun o => (specSlots S cs).map fun js => (c + o) :: js).length
        = _
      rw [List.length_flatMap,
        show (List.map (List.length ∘ fun o => List.map (fun js => (c + o) :: js)
            (specSlots S cs)) (idx_add S))
          = List.map (fun _ => (specSlots S cs).length) (idx_add S) from
          List.map_congr_left fun o ho => by simp,
        List.map_const', List.sum_replicate, smul_eq_mul, specSlots_length S cs,
        show (idx_add S).length = S from by simp [idx_add]]
      simp [pow_succ, Nat.mul_comm]

theorem mapME_congr {α β : Type} (f f' : α → Except InterpError β) :
    ∀ l : List α, (∀ a ∈ l, f a = f' a) → mapME f l = mapME f' l
  | [], _ => rfl
  | a :: as, h => by
      show (f a >>= fun b => (mapME f as).map fun bs => b :: bs)
        = (f' a >>= fun b => (mapME f' as).map fun bs => b :: bs)
      rw [h a (by simp), mapME_congr f f' as fun x hx => h x (by simp [hx])]

theorem mapME_error_head {α β : Type} (f : α → Except InterpError β) (a : α)
    (l : List α) (e : InterpError) (h : f a = .error e) :
    mapME f (a :: l) = .error e := by
  show (f a >>= fun b => (mapME f l).map fun bs => b :: bs) = _
  rw [h, except_bind_errorE]

theorem interpolation_single (mem : Bool) (t : KernelType) (g : Grid) (ctx : CtxGrid)
    (q : List ℚ) (out : List ℝ) (h : interpOne mem t g ctx q = .ok out) :
    interpolation [q] ctx g t mem = .ok [out] := by
  show mapME _ [q] = _
  rw [mapME_ok _ (fun _ => out) [q] fun a ha => by
    rw [List.mem_singleton.mp ha]; exact h]
  rfl

theorem kernelWeightsAlg_hyper (mem : Bool) (t : KernelType)
    (ht : t = .linear ∨ t = .smooth_step_1 ∨ t = .smooth_step_2)
    (g : Grid) (ctx : CtxGrid) (q : List ℚ)
    (hd : g.length = 1 ∨ g.length = 2 ∨ g.length = 3)
    (hsh : ctx.shape = g.map fun a => a.res)
    (hq : q.length = g.length)
    (hok : ∀ a ∈ g, 2 ≤ a.res ∧ a.lo < a.hi)
    (hlow : ∀ p ∈ q.zip (gridStarts g 1 true), p.2 ≤ p.1)
    (hin : ∀ p ∈ (centerIdx q g 2).zip (paddedRes g 1), ∀ o ∈ idx_add 2,
        0 ≤ p.1 + o ∧ p.1 + o < (p.2 : ℤ)) :
    ∃ w : List ℚ, kernelWeightsAlg mem t g ctx q = .ok w
      ∧ (∀ x ∈ w, 0 ≤ x) ∧ w.sum = 1 ∧ w.length = 2 ^ g.length := by
  have hst : stride t = 2 := by rcases ht with rfl | rfl | rfl <;> rfl
  have hgne : g ≠ [] := by
    intro he
    rw [he] at hd
    simp at hd
  have hpre := interpPre_eval mem g ctx q 2 hd hsh hq hin
  obtain ⟨halg, hsum, hlen⟩ := hyper_weights_eval t ht g q (centerIdx q g 2) hq
    (centerIdx_length q g 2 hq) hgne hok
  refine ⟨_, ?_, hyper_weights_nonneg t ht g q hq hok hlow, hsum, hlen⟩
  unfold kernelWeightsAlg
  rw [hst, hpre, except_bind_okE]
  show ofOption _ (algWeight t _ _) = _
  rw [show (2 / 2 : ℕ) = 1 from rfl, halg]
  rfl

theorem linear_weighting_spec_eval (dv : List (List ℚ)) (dx : List ℚ)
    (h0 : (dv.getD 0 []).length = dx.length) (hL : (dv.getLastD []).length = dx.length) :
    linear_weighting_spec dv dx = some (hyper_cube_weighting
      ((List.zipWith (· / ·) (dv.getD 0 []) dx).map linear_step)
      (((List.zipWith (· / ·) (dv.getLastD []) dx).map fun x => -x).map linear_step)) := by
  unfold linear_weighting_spec
  rw [bcast2_eq_of_len _ _ _ h0, bcast2_eq_of_len _ _ _ hL]
  rfl

theorem ofOption_someE {α : Type} (e : InterpError) (a : α) :
    ofOption e (some a) = .ok a := rfl

theorem flatMap_replicate_zero (m : ℕ) :
    (List.replicate m (0 : ℚ)).flatMap (fun w => [w * 1, w * 0])
      = List.replicate (2 * m) 0 := by
  induction m with
  | zero => rfl
  | succ m ih =>
      rw [List.replicate_succ, List.flatMap_cons, ih]
      norm_num [List.replicate_succ, Nat.mul_succ, Nat.succ_eq_add_one]

theorem hyperAux_delta : ∀ (n m : ℕ),
    hyperAux (1 :: List.replicate m 0) (List.replicate n 0) (List.replicate n 1)
      = 1 :: List.replicate (2 ^ n * (m + 1) - 1) 0
  | 0, m => by simp [hyperAux]
  | n + 1, m => by
      rw [List.replicate_succ, List.replicate_succ]
      show hyperAux ((1 :: List.replicate m 0).flatMap fun w => [w * 1, w * 0])
        (List.replicate n 0) (List.replicate n 1) = _
      rw [List.flatMap_cons, flatMap_replicate_zero]
      norm_num
      rw [show (0 : ℚ) :: List.replicate (2 * m) 0 = List.replicate (2 * m + 1) 0 from
        (List.replicate_succ 0 (2 * m)).symm]
      rw [hyperAux_delta n (2 * m + 1)]
      congr 2
      rw [pow_succ]
      ring_nf

theorem hyper_cube_delta (n : ℕ) :
    hyper_cube_weighting (List.replicate (n + 1) 0) (List.replicate (n + 1) 1)
      = 1 :: List.replicate (2 ^ (n + 1) - 1) 0 := by
  rw [List.replicate_succ, List.replicate_succ]
  show hyperAux [1, 0] (List.replicate n 0) (List.replicate n 1) = _
  rw [show ([1, 0] : List ℚ) = 1 :: List.replicate 1 0 from rfl, hyperAux_delta n 1,
    pow_succ]

theorem centerIdx_at_node : ∀ (g : Grid) (ns : List ℕ), ns.length = g.length →
    (∀ a ∈ g, 2 ≤ a.res ∧ a.lo < a.hi) →
    centerIdx (nodeCoords g 0 (ns.map fun n : ℕ => (n : ℤ))) g 2
      = (ns.map fun n : ℕ => (n : ℤ)).map fun c => c + 1
  | [], [], _, _ => rfl
  | [], n :: ns, h, _ => by simp at h
  | a :: g, [], h, _ => by simp at h
  | a :: g, n :: ns, h, hok => by
      have hdx : dxAx a ≠ 0 :=
        ne_of_gt (dxAx_pos a (hok a (by simp)).1 (hok a (by simp)).2)
      simp only [List.map_cons]
      rw [show nodeCoords (a :: g) 0 (((n : ℕ) : ℤ) :: ns.map fun n : ℕ => (n : ℤ))
          = ((a.lo - ((0 : ℕ) : ℚ) * dxAx a) + (((n : ℤ) : ℚ)) * dxAx a)
            :: nodeCoords g 0 (ns.map fun n : ℕ => (n : ℤ)) from rfl,
        centerIdx_cons]
      congr 1
      · simp only [if_true, strideFrac_two, add_zero]
        rw [show ((a.lo - ((0 : ℕ) : ℚ) * dxAx a) + (((n : ℤ) : ℚ)) * dxAx a
            - (a.lo - ((2 / 2 : ℕ) : ℚ) * dxAx a)) / dxAx a = ((n : ℚ) + 1) from by
          push_cast
          field_simp
          ring]
        rw [truncQ_of_nonneg _ (by positivity),
          show ((n : ℚ) + 1) = (((n : ℤ) + 1 : ℤ) : ℚ) from by push_cast; ring,
          Int.floor_intCast]
      · exact centerIdx_at_node g ns (by simpa using h)
          (fun b hb => hok b (by simp [hb]))

theorem node_norm_dists : ∀ (g : Grid) (ns : List ℕ), ns.length = g.length →
    (∀ a ∈ g, 2 ≤ a.res ∧ a.lo < a.hi) →
    List.zipWith (· / ·) (distOf (nodeCoords g 0 (ns.map fun n : ℕ => (n : ℤ))) g 1
        ((ns.map fun n : ℕ => (n : ℤ)).map fun c => c + 1)) (dxs g)
      = List.replicate g.length 0
    ∧ List.zipWith (· / ·) (distOf (nodeCoords g 0 (ns.map fun n : ℕ => (n : ℤ))) g 1
        (((ns.map fun n : ℕ => (n : ℤ)).map fun c => c + 1).map fun c => c + 1)) (dxs g)
      = List.replicate g.length (-1)
  | [], [], _, _ => by constructor <;> rfl
  | [], n :: ns, h, _ => by simp at h
  | a :: g, [], h, _ => by simp at h
  | a :: g, n :: ns, h, hok => by
      have hdx : dxAx a ≠ 0 :=
        ne_of_gt (dxAx_pos a (hok a (by simp)).1 (hok a (by simp)).2)
      obtain ⟨ih1, ih2⟩ := node_norm_dists g ns (by simpa using h)
        (fun b hb => hok b (by simp [hb]))
      simp only [List.map_cons]
      rw [show nodeCoords (a :: g) 0 (((n : ℕ) : ℤ) :: ns.map fun n : ℕ => (n : ℤ))
          = ((a.lo - ((0 : ℕ) : ℚ) * dxAx a) + (((n : ℤ) : ℚ)) * dxAx a)
            :: nodeCoords g 0 (ns.map fun n : ℕ => (n : ℤ)) from rfl]
      constructor
      · rw [distOf_cons, dxs_cons,
          List.zipWith_cons_cons, List.length_cons, List.replicate_succ, ih1]
        congr 1
        rw [div_eq_zero_iff]
        left
        push_cast
        ring
      · rw [distOf_cons, dxs_cons,
          List.zipWith_cons_cons, List.length_cons, List.replicate_succ, ih2]
        congr 1
        rw [div_eq_iff hdx]
        push_cast
        ring

theorem reduce_delta {α : Type} [CommRing α] (C m : ℕ) (vals : List (List α))
    (hlen : vals.length = m + 1) :
    reduceOut C (1 :: List.replicate m 0) vals
      = .ok ((List.range C).map fun c => (vals.getD 0 []).getD c 0) := by
  cases vals with
  | nil => simp at hlen
  | cons v0 vs =>
      have hvl : vs.length = m := by simpa using hlen
      unfold reduceOut
      rw [if_pos (by simp [hvl])]
      congr 1
      apply List.map_congr_left
      intro c hc
      rw [List.zip_cons_cons, List.map_cons, List.sum_cons, one_mul]
      have hz : (((List.replicate m (0 : α)).zip vs).map
          fun p => p.1 * p.2.getD c 0).sum = 0 := by
        apply List.sum_eq_zero
        intro x hx
        obtain ⟨p, hp, rfl⟩ := List.mem_map.mp hx
        rw [List.eq_of_mem_replicate (List.of_mem_zip hp).1, zero_mul]
      rw [hz, add_zero]
      rfl

theorem valOf_at_node (ctx : CtxGrid) (g : Grid) (ns : List ℕ)
    (hbnd : ∀ p ∈ ns.zip (g.map fun a => a.res), p.1 < p.2) :
    valOf ctx g 1 ((ns.map fun n : ℕ => (n : ℤ)).map fun c => c + 1)
      = (List.range ctx.channels).map fun ch => ctx.data (ch :: ns) := by
  unfold valOf
  apply List.map_congr_left
  intro ch hch
  rw [if_pos]
  · have hmap : ((ns.map fun n : ℕ => (n : ℤ)).map fun c => c + 1).map
        (fun j => (j - ((1 : ℕ) : ℤ)).toNat) = ns := by
      rw [List.map_map, List.map_map]
      conv_rhs => rw [← List.map_id ns]
      apply List.map_congr_left
      intro n hn
      simp [Function.comp_def]
    rw [hmap]
  · intro p hp
    rw [List.map_map, List.zip_map] at hp
    obtain ⟨⟨n, a⟩, hmem, rfl⟩ := List.mem_map.mp hp
    have hna : n < a.res := by
      refine hbnd (n, a.res) ?_
      rw [List.zip_map_right]
      exact List.mem_map_of_mem _ hmem
    simp only [Prod.map, Function.comp_def]
    constructor
    · omega
    · push_cast
      omega

theorem sum_map_mul_right {α : Type} [CommRing α] (v : α) :
    ∀ l : List α, (l.map fun x => x * v).sum = l.sum * v
  | [] => by simp
  | x :: l => by
      simp only [List.map_cons, List.sum_cons, sum_map_mul_right v l]
      ring

theorem specSlots_pred {S : ℕ} {β : Type} (P : ℤ → β → Prop) : ∀ (cs : List ℤ) (ps : List β),
    (∀ p ∈ cs.zip ps, ∀ o ∈ idx_add S, P (p.1 + o) p.2) →
    ∀ js ∈ specSlots S cs, ∀ p ∈ js.zip ps, P p.1 p.2
  | [], ps, _, js, hjs => by
      simp [specSlots] at hjs
      simp [hjs]
  | c :: cs, [], _, js, hjs => by
      intro p hp
      obtain ⟨o, ho, hjs'⟩ := List.mem_flatMap.mp hjs
      obtain ⟨js', _, rfl⟩ := List.mem_map.mp hjs'
      simp at hp
  | c :: cs, p0 :: ps, hin, js, hjs => by
      obtain ⟨o, ho, hjs'⟩ := List.mem_flatMap.mp hjs
      obtain ⟨js', hjs'', rfl⟩ := List.mem_map.mp hjs'
      intro p hp
      rcases List.mem_cons.mp hp with rfl | hp'
      · exact hin (c, p0) (by simp) o ho
      · exact specSlots_pred P cs ps
          (fun pr hpr o' ho' => hin pr (by simp [hpr]) o' ho') js' hjs'' p hp'

theorem valOf_length (ctx : CtxGrid) (g : Grid) (k : ℕ) (js : List ℤ) :
    (valOf ctx g k js).length = ctx.channels := by
  simp [valOf]

theorem valOf_getD_const (ctx : CtxGrid) (g : Grid) (k : ℕ) (js : List ℤ)
    (ch : ℕ) (hch : ch < ctx.channels) (v : ℚ)
    (hconst : ∀ ix : List ℕ, ctx.data (ch :: ix) = v)
    (hint : ∀ p ∈ js.zip (g.map fun a => (a.res : ℤ)), (k : ℤ) ≤ p.1 ∧ p.1 < p.2 + k) :
    (valOf ctx g k js).getD ch 0 = v := by
  unfold valOf
  rw [getD_map_range _ _ _ _ hch, if_pos hint, hconst]

theorem reduce_const {α : Type} [CommRing α] (C ch : ℕ) (hch : ch < C)
    (w : List α) (vals : List (List α)) (v : α)
    (hlen : w.length = vals.length) (hsum : w.sum = 1)
    (hv : ∀ r ∈ vals, r.getD ch 0 = v) :
    ∃ out, reduceOut C w vals = .ok out ∧ out.getD ch 0 = v ∧ out.length = C := by
  refine ⟨_, by unfold reduceOut; rw [if_pos hlen], ?_, by simp⟩
  rw [getD_map_range C ch _ 0 hch]
  have hmap : ((w.zip vals).map fun p => p.1 * p.2.getD ch 0)
      = (w.zip vals).map fun p => p.1 * v := by
    apply List.map_congr_left
    intro p hp
    rw [hv p.2 (List.of_mem_zip hp).2]
  rw [hmap,
    show ((w.zip vals).map fun p => p.1 * v) = ((w.zip vals).map Prod.fst).map (· * v)
      from by rw [List.map_map]; rfl,
    List.map_fst_zip w vals (le_of_eq hlen), sum_map_mul_right, hsum, one_mul]

theorem window_interior_padded (cs : List ℤ) (g : Grid) (S : ℕ)
    (hint : ∀ p ∈ cs.zip (g.map fun a => (a.res : ℤ)), ∀ o ∈ idx_add S,
        ((S / 2 : ℕ) : ℤ) ≤ p.1 + o ∧ p.1 + o < p.2 + (S / 2 : ℕ)) :
    ∀ p ∈ cs.zip (paddedRes g (S / 2)), ∀ o ∈ idx_add S,
      0 ≤ p.1 + o ∧ p.1 + o < (p.2 : ℤ) := by
  intro p hp o ho
  rw [show paddedRes g (S / 2) = g.map (fun a => a.res + 2 * (S / 2)) from rfl,
    List.zip_map_right] at hp
  obtain ⟨⟨c, a⟩, hmem, rfl⟩ := List.mem_map.mp hp
  have h2 := hint (c, (a.res : ℤ))
    (by rw [List.zip_map_right]; exact List.mem_map_of_mem _ hmem) o ho
  simp only [Prod.map, id] at h2 ⊢
  obtain ⟨h21, h22⟩ := h2
  constructor
  · have : (0 : ℤ) ≤ ((S / 2 : ℕ) : ℤ) := Int.ofNat_nonneg _
    omega
  · push_cast
    push_cast at h22
    omega

theorem window_interior_rows (ctx : CtxGrid) (g : Grid) (S : ℕ) (cs : List ℤ)
    (ch : ℕ) (hch : ch < ctx.channels) (v : ℚ)
    (hconst : ∀ ix : List ℕ, ctx.data (ch :: ix) = v)
    (hint : ∀ p ∈ cs.zip (g.map fun a => (a.res : ℤ)), ∀ o ∈ idx_add S,
        ((S / 2 : ℕ) : ℤ) ≤ p.1 + o ∧ p.1 + o < p.2 + (S / 2 : ℕ)) :
    ∀ js ∈ specSlots S cs, (valOf ctx g (S / 2) js).getD ch 0 = v := by
  intro js hjs
  apply valOf_getD_const ctx g _ js ch hch v hconst
  intro p hp
  exact specSlots_pred
    (fun j r => ((S / 2 : ℕ) : ℤ) ≤ j ∧ j < r + (S / 2 : ℕ))
    cs (g.map fun a => (a.res : ℤ)) hint js hjs p hp

theorem interpAlg_const_hyper (mem : Bool) (t : KernelType)
    (ht : t = .linear ∨ t = .smooth_step_1 ∨ t = .smooth_step_2)
    (g : Grid) (ctx : CtxGrid) (q : List ℚ) (v : ℚ) (ch : ℕ)
    (hch : ch < ctx.channels)
    (hd : g.length = 1 ∨ g.length = 2 ∨ g.length = 3)
    (hsh : ctx.shape = g.map fun a => a.res)
    (hq : q.length = g.length)
    (hok : ∀ a ∈ g, 2 ≤ a.res ∧ a.lo < a.hi)
    (hgne : g ≠ [])
    (hin : ∀ p ∈ (centerIdx q g 2).zip (paddedRes g 1), ∀ o ∈ idx_add 2,
        0 ≤ p.1 + o ∧ p.1 + o < (p.2 : ℤ))
    (hrow : ∀ js ∈ specSlots 2 (centerIdx q g 2),
        (valOf ctx g 1 js).getD ch 0 = v) :
    ∃ out : List ℚ, interpAlg mem t g ctx q = .ok out ∧ out.getD ch 0 = v
      ∧ out.length = ctx.channels := by
  have hst : stride t = 2 := by rcases ht with rfl | rfl | rfl <;> rfl
  have hpre := interpPre_eval mem g ctx q 2 hd hsh hq hin
  obtain ⟨halg, hsum, hlen⟩ := hyper_weights_eval t ht g q (centerIdx q g 2) hq
    (centerIdx_length q g 2 hq) hgne hok
  obtain ⟨out, hout, hgd, holen⟩ := reduce_const ctx.channels ch hch _
    ((specSlots 2 (centerIdx q g 2)).map (valOf ctx g 1)) v
    (by rw [hlen, List.length_map, specSlots_length, centerIdx_length q g 2 hq])
    hsum
    (fun r hr => by
      obtain ⟨js, hjs, rfl⟩ := List.mem_map.mp hr
      exact hrow js hjs)
  refine ⟨out, ?_, hgd, holen⟩
  unfold interpAlg
  rw [hst, hpre, except_bind_okE, show (2 / 2 : ℕ) = 1 from rfl, halg, ofOption_someE,
    except_bind_okE]
  exact hout

theorem interpAlg_const (mem : Bool) (t : KernelType) (ht : t ≠ .gaussian)
    (g : Grid) (ctx : CtxGrid) (q : List ℚ) (v : ℚ) (ch : ℕ)
    (hch : ch < ctx.channels)
    (hconst : ∀ ix : List ℕ, ctx.data (ch :: ix) = v)
    (hd : g.length = 1 ∨ g.length = 2 ∨ g.length = 3)
    (hsh : ctx.shape = g.map fun a => a.res)
    (hq : q.length = g.length)
    (hok : ∀ a ∈ g, 2 ≤ a.res ∧ a.lo < a.hi)
    (hint : ∀ p ∈ (centerIdx q g (stride t)).zip (g.map fun a => (a.res : ℤ)),
        ∀ o ∈ idx_add (stride t),
        ((stride t / 2 : ℕ) : ℤ) ≤ p.1 + o ∧ p.1 + o < p.2 + (stride t / 2 : ℕ)) :
    ∃ out : List ℚ, interpAlg mem t g ctx q = .ok out ∧ out.getD ch 0 = v
      ∧ out.length = ctx.channels := by
  have hgne : g ≠ [] := by
    intro he
    rw [he] at hd
    simp at hd
  have hin := window_interior_padded (centerIdx q g (stride t)) g (stride t) hint
  have hrow := window_interior_rows ctx g (stride t) (centerIdx q g (stride t)) ch hch
    v hconst hint
  cases t with
  | gaussian => exact absurd rfl ht
  | nearest_neighbor =>
      have hpre := interpPre_eval mem g ctx q 1 hd hsh hq hin
      have hlen : ([1] : List ℚ).length
          = ((specSlots 1 (centerIdx q g 1)).map (valOf ctx g 0)).length := by
        rw [List.length_map, specSlots_length, centerIdx_length q g 1 hq]
        simp
      obtain ⟨out, hout, hgd, holen⟩ := reduce_const ctx.channels ch hch [1]
        ((specSlots 1 (centerIdx q g 1)).map (valOf ctx g 0)) v hlen (by simp)
        (fun r hr => by
          obtain ⟨js, hjs, rfl⟩ := List.mem_map.mp hr
          exact hrow js hjs)
      refine ⟨out, ?_, hgd, holen⟩
      unfold interpAlg
      rw [show stride KernelType.nearest_neighbor = 1 from rfl, hpre, except_bind_okE,
        show algWeight KernelType.nearest_neighbor
          ((specSlots 1 (centerIdx q g 1)).map (distOf q g (1 / 2))) (dxs g)
          = some [1] from rfl, ofOption_someE, except_bind_okE]
      exact hout
  | linear =>
      exact interpAlg_const_hyper mem .linear (Or.inl rfl)
        g ctx q v ch hch hd hsh hq hok hgne hin hrow
  | smooth_step_1 =>
      exact interpAlg_const_hyper mem .smooth_step_1 (Or.inr (Or.inl rfl))
        g ctx q v ch hch hd hsh hq hok hgne hin hrow
  | smooth_step_2 =>
      exact interpAlg_const_hyper mem .smooth_step_2 (Or.inr (Or.inr rfl))
        g ctx q v ch hch hd hsh hq hok hgne hin hrow

/-- C1: on the 1D grid `{min 0, max 1, resolution 3}` (nodes 0, 1/2, 1)
with a single channel holding `[0, 10, 0]`, linear-kernel interpolation
returns 5 at query `x = 1/4` and exactly 10 at query `x = 1/2`. -/
theorem C1_linear_concrete :
    interpolation [[1/4]] ctxHat grid1 .linear true = .ok [[5]] ∧
    interpolation [[1/2]] ctxHat grid1 .linear true = .ok [[10]] := by
  constructor
  · rw [interpolation_single_alg true .linear grid1 ctxHat [1/4] (by decide) [5]
      (by with_unfolding_all decide)]
    norm_num [castRow]
  · rw [interpolation_single_alg true .linear grid1 ctxHat [1/2] (by decide) [10]
      (by with_unfolding_all decide)]
    norm_num [castRow]

/-- C10: a grid specification with an axis count other than 1, 2 or 3
makes `interpolation` fail with the unsupported-dimensionality error (the
`RuntimeError` raised in the window-index computation, before any
gathering), for every kernel, gather strategy, well-shaped context grid
and aligned nonempty query batch. -/
theorem C10_unsupported_dimensionality (g : Grid) (ctx : CtxGrid) (qs : List (List ℚ))
    (t : KernelType) (mem : Bool)
    (hd : ¬(g.length = 1 ∨ g.length = 2 ∨ g.length = 3))
    (hsh : ctx.shape = g.map fun a => a.res)
    (hq : ∀ q ∈ qs, q.length = g.length) (hqs : qs ≠ []) :
    interpolation qs ctx g t mem = .error .unsupportedDim := by
  rcases qs with _ | ⟨q, rest⟩
  · exact absurd rfl hqs
  have hlen : ctx.shape.length = g.length := by rw [hsh]; simp
  have h1 : interpPre mem g ctx q (stride t) = .error .unsupportedDim := by
    unfold interpPre
    rw [if_pos (by omega), if_pos (reshape_check_wellshaped g ctx _ hsh),
      grid_knn_idx_aligned q g (stride t) (hq q (by simp)),
      knnWindow_unsupported g (stride t) (stride t / 2) true _ hd]
    rfl
  simp [interpolation, mapME, interpOne_pre_error mem t g ctx q _ h1]

/-- C10 witness: a concrete 4-axis grid raises the error. -/
theorem C10_witness :
    interpolation [[0, 0, 0, 0]] ctx4d grid4d .smooth_step_2 true
      = .error .unsupportedDim :=
  C10_unsupported_dimensionality grid4d ctx4d [[0, 0, 0, 0]] .smooth_step_2 true
    (by decide) (by decide) (by decide) (by decide)

/-- C9 (amended): a context grid whose padded element count disagrees
with the padded node count the grid spec implies is rejected with the
shape-mismatch error (the failing `torch.reshape`, or `F.pad` when the
tensor has fewer axes than the grid), before any gathering is performed. -/
theorem C9_amended_shape_check (g : Grid) (ctx : CtxGrid) (qs : List (List ℚ))
    (t : KernelType) (mem : Bool)
    (hx : (padLastShape (ctx.channels :: ctx.shape) g.length (stride t / 2)).prod
      ≠ ctx.channels * nrGridPoints g (stride t / 2))
    (hqs : qs ≠ []) :
    interpolation qs ctx g t mem = .error .shapeMismatch := by
  rcases qs with _ | ⟨q, rest⟩
  · exact absurd rfl hqs
  have h1 : interpPre mem g ctx q (stride t) = .error .shapeMismatch := by
    unfold interpPre
    by_cases hc : g.length ≤ ctx.shape.length + 1
    · rw [if_pos hc, if_neg hx]
    · rw [if_neg hc]
  simp [interpolation, mapME, interpOne_pre_error mem t g ctx q _ h1]

/-- C9 witness: a `[1, 4]` context grid on a resolution-3 axis fails. -/
theorem C9_witness :
    interpolation [[0]] ctxBad14 grid1 .linear true = .error .shapeMismatch :=
  C9_amended_shape_check grid1 ctxBad14 [[0]] .linear true (by decide) (by decide)

/-- C9 counterexample: two inputs on which the claim fails.  First, a
`[1, 2, 7]` context grid is inconsistent with a 2D grid spec of
resolutions `(4, 4)` (14 nodes supplied, 16 implied), yet `interpolation`
raises no error at all: the padded element counts coincide
(`4*9 = 6*6 = 36`), the reshape succeeds, gathering proceeds and a value
is returned.  Second, a query vector of length 2 against a 1-axis grid
broadcasts instead of failing: the call completes and returns the value
at the node nearest to the first coordinate. -/
theorem C9_counterexample :
    (ctx27.shape.prod ≠ (grid44.map fun a => a.res).prod
      ∧ interpolation [[1/2, 1/2]] ctx27 grid44 .linear true = .ok [[7/2]])
    ∧ (([(3 : ℚ)/10, 77].length ≠ grid1.length)
      ∧ interpolation [[3/10, 77]] ctxHat grid1 .nearest_neighbor true = .ok [[10]]) := by
  refine ⟨⟨by decide, ?_⟩, by decide, ?_⟩
  · rw [interpolation_single_alg true .linear grid44 ctx27 [1/2, 1/2] (by decide) [7/2]
      (by with_unfolding_all decide)]
    norm_num [castRow]
  · rw [interpolation_single_alg true .nearest_neighbor grid1 ctxHat [3/10, 77] (by decide) [10]
      (by with_unfolding_all decide)]
    norm_num [castRow]

/-- C6 counterexample: the code casts the center computation to int64,
which truncates toward zero rather than flooring.  For the stride-2
window on the `{0,1,3}` grid and the query `x = -13/20` (below the padded
start `-1/2`), the claimed floor formula gives `-1` per axis, but the
code computes center index `0`. -/
theorem C6_counterexample :
    bcastCenter [(-13 : ℚ)/20] (gridStarts grid1 (2 / 2) true) (dxs grid1) (strideFrac 2)
      = some [0]
    ∧ ⌊(((-13 : ℚ)/20) - (gridStarts grid1 (2 / 2) true).getD 0 0) / (dxs grid1).getD 0 0
        + strideFrac 2⌋ = -1
    ∧ (0 : ℤ) ≠ -1 := by
  with_unfolding_all decide

/-- C6 (amended): the neighbor locator computes the per-axis center index
as `(query - padded_start)/dx + frac` cast to int64, i.e. TRUNCATED toward
zero — which agrees with the claimed floor exactly when that argument is
nonnegative (in particular for queries at or above the padded start);
`frac = (S/2) mod 1`; the per-axis window offsets enumerate
`[-((S-1)//2), S//2]` inclusive, of length `S`; and the window's flat
indices combine the per-axis indices by row-major strides of the padded
resolutions. -/
theorem C6_amended_locator (q : List ℚ) (g : Grid) (S : ℕ)
    (hS : S = 1 ∨ S = 2 ∨ S = 5)
    (hd : g.length = 1 ∨ g.length = 2 ∨ g.length = 3)
    (hq : q.length = g.length) :
    grid_knn_idx q g S true
        = .ok ((specSlots S (centerIdx q g S)).map (rowFlat (paddedRes g (S / 2))))
    ∧ centerIdx q g S
        = List.zipWith (fun qi sd => truncQ ((qi - sd.1) / sd.2 + strideFrac S)) q
            ((gridStarts g (S / 2) true).zip (dxs g))
    ∧ (∀ p ∈ q.zip ((gridStarts g (S / 2) true).zip (dxs g)),
        0 ≤ (p.1 - p.2.1) / p.2.2 + strideFrac S →
        truncQ ((p.1 - p.2.1) / p.2.2 + strideFrac S)
          = ⌊(p.1 - p.2.1) / p.2.2 + strideFrac S⌋)
    ∧ strideFrac S = (S : ℚ) / 2 - ⌊(S : ℚ) / 2⌋
    ∧ (idx_add S).length = S
    ∧ (∀ j, j < S → (idx_add S).getD j 0 = (j : ℤ) - (((S - 1) / 2 : ℕ) : ℤ))
    ∧ (idx_add S).getD 0 0 = -(((S - 1) / 2 : ℕ) : ℤ)
    ∧ (idx_add S).getD (S - 1) 0 = ((S / 2 : ℕ) : ℤ) := by
  have hS1 : 1 ≤ S := by rcases hS with h | h | h <;> omega
  have hlenI : (idx_add S).length = S := by simp [idx_add]
  have hgetD : ∀ j, j < S → (idx_add S).getD j 0 = (j : ℤ) - (((S - 1) / 2 : ℕ) : ℤ) := by
    intro j hj
    rw [List.getD_eq_getElem _ _ (by rw [hlenI]; exact hj)]
    simp [idx_add]
  refine ⟨?_, rfl, fun p _ h0 => truncQ_of_nonneg _ h0, rfl, hlenI, hgetD, ?_, ?_⟩
  · rw [grid_knn_idx_aligned q g S hq]
    exact knnWindow_eq_spec g S (S / 2) _ (centerIdx_length q g S hq) hd
  · rw [hgetD 0 (by omega)]
    simp
  · rw [hgetD (S - 1) (by omega)]
    omega

/-- C6 witness: the window equation at a concrete stride-2 1D instance. -/
theorem C6_witness :
    grid_knn_idx [(1 : ℚ)/4] grid1 2 true
      = .ok ((specSlots 2 (centerIdx [(1 : ℚ)/4] grid1 2)).map
          (rowFlat (paddedRes grid1 (2 / 2)))) :=
  (C6_amended_locator [(1 : ℚ)/4] grid1 2 (by decide) (by decide) (by decide)).1

/-- C8 (amended): the padded context grid read by the pipeline through
the reshaped `[1, channels, nodes]` view: flat element `ch * N + f`
decomposes row-major; nodes whose per-axis index lies in the `k`-wide
border read the zero fill, all interior nodes read the caller's data at
the index shifted by `k`. -/
theorem C8_amended_padded_layout (ctx : CtxGrid) (g : Grid) (k : ℕ)
    (hsh : ctx.shape = g.map fun a => a.res) (ch f : ℕ)
    (hf : f < nrGridPoints g k) :
    paddedCtxFlat ctx g.length k (ch * nrGridPoints g k + f)
      = if ∀ p ∈ (unflatten (paddedRes g k) f).zip (g.map fun a => a.res),
            k ≤ p.1 ∧ p.1 < p.2 + k
        then ctx.data (ch :: (unflatten (paddedRes g k) f).map fun j => j - k)
        else 0 :=
  paddedCtxFlat_decompose ctx g k hsh ch f hf

/-- C8 witness: on a 2-channel `[2, 3, 4]` context grid, padded flat
element `1 * 30 + 7` is the interior node `(0, 0)` of channel 1. -/
theorem C8_witness :
    (ctx34.shape = grid34.map fun a => a.res) ∧ 7 < nrGridPoints grid34 1 ∧
    paddedCtxFlat ctx34 grid34.length 1 (1 * nrGridPoints grid34 1 + 7)
      = if ∀ p ∈ (unflatten (paddedRes grid34 1) 7).zip (grid34.map fun a => a.res),
            1 ≤ p.1 ∧ p.1 < p.2 + 1
        then ctx34.data (1 :: (unflatten (paddedRes grid34 1) 7).map fun j => j - 1)
        else 0 :=
  ⟨by decide, by decide, C8_amended_padded_layout ctx34 grid34 1 (by decide) 1 7 (by decide)⟩

/-- C8 counterexample: the pre-flattened `[channels, r1*r2]` form the
claim says is accepted is rejected for a 2-axis grid: `F.pad` pads the
channel axis of the rank-2 tensor, the element count no longer matches
the padded node count, and the call fails with the shape-mismatch error. -/
theorem C8_counterexample :
    ctxFlat12.shape = [(grid34.map fun a => a.res).prod] ∧
    interpolation [[1/2, 1/2]] ctxFlat12 grid34 .linear true = .error .shapeMismatch := by
  refine ⟨by decide, ?_⟩
  exact interpolation_single_error true .linear grid34 ctxFlat12 [1/2, 1/2] .shapeMismatch
    (interpOne_alg_error true .linear grid34 ctxFlat12 [1/2, 1/2] .shapeMismatch (by decide)
      (by with_unfolding_all decide))

/-- C2: for a 1-3 axis grid spec, any recognized kernel, a query at or above
the per-axis padded starts whose whole window stays inside the padded
lattice per axis, the computed window weights are non-negative and sum
exactly to 1. -/
theorem C2_amended_weight_normalization (mem : Bool) (t : KernelType) (g : Grid)
    (ctx : CtxGrid) (q : List ℚ)
    (hd : g.length = 1 ∨ g.length = 2 ∨ g.length = 3)
    (hsh : ctx.shape = g.map fun a => a.res)
    (hq : q.length = g.length)
    (hok : ∀ a ∈ g, 2 ≤ a.res ∧ a.lo < a.hi)
    (hlow : ∀ p ∈ q.zip (gridStarts g (stride t / 2) true), p.2 ≤ p.1)
    (hin : ∀ p ∈ (centerIdx q g (stride t)).zip (paddedRes g (stride t / 2)),
        ∀ o ∈ idx_add (stride t), 0 ≤ p.1 + o ∧ p.1 + o < (p.2 : ℤ)) :
    ∃ w : List ℝ, kernelWeights mem t g ctx q = .ok w
      ∧ (∀ x ∈ w, 0 ≤ x) ∧ w.sum = 1 := by
  cases t with
  | nearest_neighbor =>
      have hpre := interpPre_eval mem g ctx q 1 hd hsh hq hin
      refine ⟨castRow [1], ?_, castRow_nonneg [1] (by norm_num), ?_⟩
      · rw [kernelWeights_alg mem _ g ctx q fun h => KernelType.noConfusion h]
        unfold kernelWeightsAlg
        rw [show stride KernelType.nearest_neighbor = 1 from rfl, hpre, except_bind_okE]
        rfl
      · rw [castRow_sum]
        norm_num
  | linear =>
      obtain ⟨w, hw, hnn, hsum, _⟩ := kernelWeightsAlg_hyper mem .linear (Or.inl rfl)
        g ctx q hd hsh hq hok hlow hin
      exact ⟨castRow w,
        by rw [kernelWeights_alg mem _ g ctx q fun h => KernelType.noConfusion h, hw]; rfl,
        castRow_nonneg w hnn,
        by rw [castRow_sum, hsum]; norm_num⟩
  | smooth_step_1 =>
      obtain ⟨w, hw, hnn, hsum, _⟩ := kernelWeightsAlg_hyper mem .smooth_step_1 (Or.inr (Or.inl rfl))
        g ctx q hd hsh hq hok hlow hin
      exact ⟨castRow w,
        by rw [kernelWeights_alg mem _ g ctx q fun h => KernelType.noConfusion h, hw]; rfl,
        castRow_nonneg w hnn,
        by rw [castRow_sum, hsum]; norm_num⟩
  | smooth_step_2 =>
      obtain ⟨w, hw, hnn, hsum, _⟩ := kernelWeightsAlg_hyper mem .smooth_step_2 (Or.inr (Or.inr rfl))
        g ctx q hd hsh hq hok hlow hin
      exact ⟨castRow w,
        by rw [kernelWeights_alg mem _ g ctx q fun h => KernelType.noConfusion h, hw]; rfl,
        castRow_nonneg w hnn,
        by rw [castRow_sum, hsum]; norm_num⟩
  | gaussian =>
      have hpre := interpPre_eval mem g ctx q 5 hd hsh hq hin
      have hdx : ∀ d ∈ dxs g, 0 < d := by
        intro d hd'
        obtain ⟨a, ha, rfl⟩ := List.mem_map.mp hd'
        exact dxAx_pos a (hok a ha).1 (hok a ha).2
      have hlenrow : ∀ v ∈ (specSlots 5 (centerIdx q g 5)).map (distOf q g 2),
          v.length = (dxs g).length := by
        intro v hv
        obtain ⟨js, hjs, rfl⟩ := List.mem_map.mp hv
        rw [distOf_length, dxs_length, hq, specSlots_len _ js hjs,
          centerIdx_length q g 5 hq]
        simp
      have hne : (specSlots 5 (centerIdx q g 5)).map (distOf q g 2) ≠ [] := by
        intro h
        exact specSlots_ne_nil 5 (by omega) _ (List.map_eq_nil_iff.mp h)
      obtain ⟨w, hw, hnn, hsum, _⟩ := gaussian_weighting_eval _ (dxs g) hlenrow hne hdx
      refine ⟨w, ?_, hnn, hsum⟩
      unfold kernelWeights
      rw [show stride KernelType.gaussian = 5 from rfl, hpre, except_bind_okE]
      show ofOption _ (gaussian_weighting _ _) = _
      rw [show (5 / 2 : ℕ) = 2 from rfl, hw]
      rfl

theorem C2_witness :
    ∃ w : List ℝ, kernelWeights true .linear grid1 ctxHat [1/4] = .ok w
      ∧ (∀ x ∈ w, 0 ≤ x) ∧ w.sum = 1 :=
  C2_amended_weight_normalization true .linear grid1 ctxHat [1/4]
    (by decide) (by decide) (by decide)
    (by with_unfolding_all decide) (by with_unfolding_all decide)
    (by with_unfolding_all decide)

/-- C2 fails at the top of the padded domain: on the 3x3 unit grid, the
query (-1/2, 3/2) lies inside the padded domain (per-axis padded start
-1/2, last padded node coordinate 3/2), yet the linear-kernel window
weights come out as [-8, 0, 0, 0] under both gather strategies: a
negative weight and a sum of -8 instead of 1. -/
theorem C2_counterexample :
    gridStarts grid2 1 true = [-1/2, -1/2]
    ∧ nodeCoords grid2 1 [4, 4] = [3/2, 3/2]
    ∧ (∀ i ∈ ([-1/2, 3/2] : List ℚ), -1/2 ≤ i ∧ i ≤ 3/2)
    ∧ kernelWeightsAlg true .linear grid2 ctxZero2 [-1/2, 3/2] = .ok [-8, 0, 0, 0]
    ∧ kernelWeightsAlg false .linear grid2 ctxZero2 [-1/2, 3/2] = .ok [-8, 0, 0, 0]
    ∧ ([(-8 : ℚ), 0, 0, 0].sum ≠ 1)
    ∧ ¬ (∀ x ∈ ([(-8 : ℚ), 0, 0, 0]), 0 ≤ x) := by
  with_unfolding_all decide

/-- C7 (amended): the linear kernel's per-axis factors are the raw
normalized distances with no clip applied; they are combined by the
recursive outer product `hyper_cube_weighting` into `2 ^ dims`
hypercube-corner weights that sum to 1, and for a query inside the cell
(at or above the padded starts) the result coincides with the clipped
formula the specification describes. -/
theorem C7_amended_linear_weighting (mem : Bool) (g : Grid) (ctx : CtxGrid) (q : List ℚ)
    (hd : g.length = 1 ∨ g.length = 2 ∨ g.length = 3)
    (hsh : ctx.shape = g.map fun a => a.res)
    (hq : q.length = g.length)
    (hok : ∀ a ∈ g, 2 ≤ a.res ∧ a.lo < a.hi)
    (hlow : ∀ p ∈ q.zip (gridStarts g 1 true), p.2 ≤ p.1)
    (hin : ∀ p ∈ (centerIdx q g 2).zip (paddedRes g 1), ∀ o ∈ idx_add 2,
        0 ≤ p.1 + o ∧ p.1 + o < (p.2 : ℤ)) :
    kernelWeightsAlg mem .linear g ctx q
      = .ok (hyper_cube_weighting
          (List.zipWith (· / ·) (distOf q g 1 (centerIdx q g 2)) (dxs g))
          ((List.zipWith (· / ·) (distOf q g 1 ((centerIdx q g 2).map fun c => c + 1))
              (dxs g)).map fun x => -x))
      ∧ (hyper_cube_weighting
          (List.zipWith (· / ·) (distOf q g 1 (centerIdx q g 2)) (dxs g))
          ((List.zipWith (· / ·) (distOf q g 1 ((centerIdx q g 2).map fun c => c + 1))
              (dxs g)).map fun x => -x)).length = 2 ^ g.length
      ∧ (hyper_cube_weighting
          (List.zipWith (· / ·) (distOf q g 1 (centerIdx q g 2)) (dxs g))
          ((List.zipWith (· / ·) (distOf q g 1 ((centerIdx q g 2).map fun c => c + 1))
              (dxs g)).map fun x => -x)).sum = 1
      ∧ linear_weighting_spec ((specSlots 2 (centerIdx q g 2)).map (distOf q g 1))
          (dxs g)
        = some (hyper_cube_weighting
            (List.zipWith (· / ·) (distOf q g 1 (centerIdx q g 2)) (dxs g))
            ((List.zipWith (· / ·) (distOf q g 1 ((centerIdx q g 2).map fun c => c + 1))
                (dxs g)).map fun x => -x)) := by
  have hgne : g ≠ [] := by
    intro he
    rw [he] at hd
    simp at hd
  have hcl : (centerIdx q g 2).length = g.length := centerIdx_length q g 2 hq
  obtain ⟨halg, hsum, hlen⟩ := hyper_weights_eval .linear (Or.inl rfl) g q
    (centerIdx q g 2) hq hcl hgne hok
  simp only [stepOf, List.map_id] at halg hsum hlen
  have hpre := interpPre_eval mem g ctx q 2 hd hsh hq hin
  have hS1 : (1 : ℕ) ≤ 2 := by omega
  have hd0 : ((specSlots 2 (centerIdx q g 2)).map (distOf q g 1)).getD 0 []
      = distOf q g 1 (centerIdx q g 2) := by
    rw [getD0_map_of_ne_nil _ _ _ [] (specSlots_ne_nil 2 hS1 _), specSlots_head 2 hS1,
      show (idx_add 2).getD 0 0 = 0 from by decide]
    simp
  have hdL : ((specSlots 2 (centerIdx q g 2)).map (distOf q g 1)).getLastD []
      = distOf q g 1 ((centerIdx q g 2).map fun c => c + 1) := by
    rw [getLastD_map_of_ne_nil _ _ _ [] (specSlots_ne_nil 2 hS1 _), specSlots_last 2 hS1]
    norm_num
  have hlen0 : (distOf q g 1 (centerIdx q g 2)).length = (dxs g).length := by
    rw [distOf_length, dxs_length, hq, hcl]
    simp
  have hlenL : (distOf q g 1 ((centerIdx q g 2).map fun c => c + 1)).length
      = (dxs g).length := by
    rw [distOf_length, dxs_length, hq]
    simp [hcl]
  refine ⟨?_, hlen, hsum, ?_⟩
  · unfold kernelWeightsAlg
    rw [show stride KernelType.linear = 2 from rfl, hpre, except_bind_okE]
    show ofOption _ (algWeight .linear _ _) = _
    rw [show (2 / 2 : ℕ) = 1 from rfl, halg]
    rfl
  · rw [linear_weighting_spec_eval _ _ (by rw [hd0]; exact hlen0)
      (by rw [hdL]; exact hlenL), hd0, hdL]
    set L := List.zipWith (· / ·) (distOf q g 1 (centerIdx q g 2)) (dxs g) with hL
    set U := (List.zipWith (· / ·) (distOf q g 1 ((centerIdx q g 2).map fun c => c + 1))
      (dxs g)).map fun x => -x with hU
    have hLbnd := center_fract_bounds g q hq hok hlow
    have hLlen : L.length = g.length := by
      rw [hL, List.length_zipWith, hlen0, dxs_length]
      simp
    have hUlen : U.length = g.length := by
      rw [hU, List.length_map, List.length_zipWith, hlenL, dxs_length]
      simp
    have hfac : List.zipWith (· + ·) U L = List.replicate g.length 1 := by
      have h := kernel_factors id (fun s => by simp) g q (centerIdx q g 2) hq hcl hok 1
      simpa using h
    have hUbnd := upper_from_sum U L g.length hfac hUlen hLlen hLbnd
    have heqL : L.map linear_step = L := by
      rw [show L.map linear_step = L.map id from
        List.map_congr_left fun x hx => clip01_eq_self (hLbnd x hx).1
          (le_of_lt (hLbnd x hx).2), List.map_id]
    have heqU : U.map linear_step = U := by
      rw [show U.map linear_step = U.map id from
        List.map_congr_left fun x hx => clip01_eq_self (le_of_lt (hUbnd x hx).1)
          (hUbnd x hx).2, List.map_id]
    rw [heqL, heqU]

theorem C7_witness :
    kernelWeightsAlg true .linear grid1 ctxHat [1/4]
      = .ok (hyper_cube_weighting
          (List.zipWith (· / ·) (distOf [1/4] grid1 1 (centerIdx [1/4] grid1 2))
            (dxs grid1))
          ((List.zipWith (· / ·) (distOf [1/4] grid1 1
              ((centerIdx [1/4] grid1 2).map fun c => c + 1)) (dxs grid1)).map fun x => -x))
      ∧ (hyper_cube_weighting
          (List.zipWith (· / ·) (distOf [1/4] grid1 1 (centerIdx [1/4] grid1 2))
            (dxs grid1))
          ((List.zipWith (· / ·) (distOf [1/4] grid1 1
              ((centerIdx [1/4] grid1 2).map fun c => c + 1)) (dxs grid1)).map
            fun x => -x)).length = 2 ^ grid1.length
      ∧ (hyper_cube_weighting
          (List.zipWith (· / ·) (distOf [1/4] grid1 1 (centerIdx [1/4] grid1 2))
            (dxs grid1))
          ((List.zipWith (· / ·) (distOf [1/4] grid1 1
              ((centerIdx [1/4] grid1 2).map fun c => c + 1)) (dxs grid1)).map
            fun x => -x)).sum = 1
      ∧ linear_weighting_spec ((specSlots 2 (centerIdx [1/4] grid1 2)).map
            (distOf [1/4] grid1 1)) (dxs grid1)
        = some (hyper_cube_weighting
            (List.zipWith (· / ·) (distOf [1/4] grid1 1 (centerIdx [1/4] grid1 2))
              (dxs grid1))
            ((List.zipWith (· / ·) (distOf [1/4] grid1 1
                ((centerIdx [1/4] grid1 2).map fun c => c + 1)) (dxs grid1)).map
              fun x => -x)) :=
  C7_amended_linear_weighting true grid1 ctxHat [1/4]
    (by decide) (by decide) (by decide)
    (by with_unfolding_all decide) (by with_unfolding_all decide)
    (by with_unfolding_all decide)

/-- C7 is wrong about the clip: `linear_weighting` applies no clip to the
per-axis factors (`linear_step` is dead code), so outside the cell the
computed weights differ from the clipped formula and leave [0, 1]; the
unclipped weights are produced by the real pipeline for the query
-13/20 on the padded unit grid. -/
theorem C7_counterexample :
    linear_weighting [[-3/20], [-13/20]] [1/2] = some [13/10, -3/10]
    ∧ linear_weighting_spec [[-3/20], [-13/20]] [1/2] = some [1, 0]
    ∧ ([13/10, -3/10] : List ℚ) ≠ [1, 0]
    ∧ (13/10 : ℚ) ≠ clip01 (13/10)
    ∧ kernelWeightsAlg true .linear grid1 ctxRamp [-13/20] = .ok [13/10, -3/10] := by
  with_unfolding_all decide

/-- C4: for the linear and both smooth-step kernels, querying exactly at
an (unpadded) lattice node returns the stored context values of that
node unchanged, for every context grid and 1-3 axis grid spec: the
window weights concentrate on that node with weight 1 and all other
slots weigh 0. -/
theorem C4_node_recovery (mem : Bool) (t : KernelType)
    (ht : t = .linear ∨ t = .smooth_step_1 ∨ t = .smooth_step_2)
    (g : Grid) (ctx : CtxGrid) (ns : List ℕ)
    (hd : g.length = 1 ∨ g.length = 2 ∨ g.length = 3)
    (hsh : ctx.shape = g.map fun a => a.res)
    (hok : ∀ a ∈ g, 2 ≤ a.res ∧ a.lo < a.hi)
    (hns : ns.length = g.length)
    (hbnd : ∀ p ∈ ns.zip (g.map fun a => a.res), p.1 < p.2) :
    interpolation [nodeCoords g 0 (ns.map fun n : ℕ => (n : ℤ))] ctx g t mem
      = .ok [castRow ((List.range ctx.channels).map fun ch => ctx.data (ch :: ns))] := by
  have hgne : g ≠ [] := by
    intro he
    rw [he] at hd
    simp at hd
  have hst : stride t = 2 := by rcases ht with rfl | rfl | rfl <;> rfl
  have htg : t ≠ .gaussian := by rcases ht with rfl | rfl | rfl <;>
    exact fun hc => KernelType.noConfusion hc
  have hq : (nodeCoords g 0 (ns.map fun n : ℕ => (n : ℤ))).length = g.length := by
    rw [nodeCoords_length]
    simp [hns]
  have hcs := centerIdx_at_node g ns hns hok
  have hin : ∀ p ∈ (centerIdx (nodeCoords g 0 (ns.map fun n : ℕ => (n : ℤ))) g 2).zip
      (paddedRes g 1), ∀ o ∈ idx_add 2, 0 ≤ p.1 + o ∧ p.1 + o < (p.2 : ℤ) := by
    rw [hcs]
    intro p hp o ho
    rw [List.map_map, show paddedRes g 1 = g.map fun a => a.res + 2 from rfl,
      List.zip_map] at hp
    obtain ⟨⟨n, a⟩, hmem, rfl⟩ := List.mem_map.mp hp
    have hna : n < a.res := by
      refine hbnd (n, a.res) ?_
      rw [List.zip_map_right]
      exact List.mem_map_of_mem _ hmem
    have hov : o = 0 ∨ o = 1 := by
      rw [show idx_add 2 = [0, 1] from by decide] at ho
      simpa using ho
    simp only [Prod.map, Function.comp_def]
    rcases hov with rfl | rfl <;> constructor <;> (push_cast; omega)
  have hpre := interpPre_eval mem g ctx (nodeCoords g 0 (ns.map fun n : ℕ => (n : ℤ))) 2
    hd hsh hq hin
  obtain ⟨halg, _, _⟩ := hyper_weights_eval t ht g
    (nodeCoords g 0 (ns.map fun n : ℕ => (n : ℤ)))
    (centerIdx (nodeCoords g 0 (ns.map fun n : ℕ => (n : ℤ))) g 2) hq
    (centerIdx_length _ g 2 hq) hgne hok
  obtain ⟨hL0, hU0⟩ := node_norm_dists g ns hns hok
  rw [hcs, hL0, hU0] at halg
  have h0 : stepOf t 0 = 0 := by
    rcases ht with rfl | rfl | rfl <;>
      norm_num [stepOf, smooth_step_1, smooth_step_2, clip01]
  have h1 : stepOf t 1 = 1 := by
    rcases ht with rfl | rfl | rfl <;>
      norm_num [stepOf, smooth_step_1, smooth_step_2, clip01]
  rw [List.map_replicate, List.map_replicate, List.map_replicate, h0] at halg
  rw [show -(-1 : ℚ) = 1 from by norm_num, h1] at halg
  obtain ⟨m, hm⟩ : ∃ m, g.length = m + 1 :=
    ⟨g.length - 1, by
      have : 0 < g.length := List.length_pos.mpr hgne
      omega⟩
  rw [hm, hyper_cube_delta m] at halg
  have hvlen : ((specSlots 2 ((ns.map fun n : ℕ => (n : ℤ)).map fun c => c + 1)).map
      (valOf ctx g 1)).length = (2 ^ (m + 1) - 1) + 1 := by
    rw [List.length_map, specSlots_length]
    have h2 : 0 < 2 ^ (m + 1) := by positivity
    simp only [List.length_map, hns, hm]
    omega
  have hAlg : interpAlg mem t g ctx (nodeCoords g 0 (ns.map fun n : ℕ => (n : ℤ)))
      = .ok ((List.range ctx.channels).map fun ch => ctx.data (ch :: ns)) := by
    unfold interpAlg
    rw [hst, hpre, except_bind_okE, show (2 / 2 : ℕ) = 1 from rfl, hcs, halg,
      ofOption_someE, except_bind_okE, reduce_delta ctx.channels (2 ^ (m + 1) - 1) _
        hvlen]
    congr 1
    have hhead : ((specSlots 2 ((ns.map fun n : ℕ => (n : ℤ)).map fun c => c + 1)).map
        (valOf ctx g 1)).getD 0 []
        = valOf ctx g 1 ((ns.map fun n : ℕ => (n : ℤ)).map fun c => c + 1) := by
      rw [getD0_map_of_ne_nil _ _ _ [] (specSlots_ne_nil 2 (by omega) _),
        specSlots_head 2 (by omega), show (idx_add 2).getD 0 0 = 0 from by decide]
      simp [Function.comp_def]
    rw [hhead, valOf_at_node ctx g ns hbnd]
    apply List.map_congr_left
    intro c hc
    rw [getD_map_range ctx.channels c _ 0 (List.mem_range.mp hc)]
  exact interpolation_single_alg mem t g ctx _ htg _ hAlg

theorem C4_witness :
    interpolation [nodeCoords grid1 0 ([1].map fun n : ℕ => (n : ℤ))] ctxHat grid1
        .linear true
      = .ok [castRow ((List.range ctxHat.channels).map fun ch =>
          ctxHat.data (ch :: [1]))] :=
  C4_node_recovery true .linear (Or.inl rfl) grid1 ctxHat [1]
    (by decide) (by decide) (by with_unfolding_all decide) (by decide) (by decide)

/-- C5 (amended): if channel `ch` of the context grid holds the value `v`
at every node, then for every kernel type and every query whose whole
window lies inside the unpadded lattice (per axis), interpolation
returns exactly `v` for that channel. -/
theorem C5_amended_constant_field (mem : Bool) (t : KernelType) (g : Grid)
    (ctx : CtxGrid) (q : List ℚ) (v : ℚ) (ch : ℕ)
    (hch : ch < ctx.channels)
    (hconst : ∀ ix : List ℕ, ctx.data (ch :: ix) = v)
    (hd : g.length = 1 ∨ g.length = 2 ∨ g.length = 3)
    (hsh : ctx.shape = g.map fun a => a.res)
    (hq : q.length = g.length)
    (hok : ∀ a ∈ g, 2 ≤ a.res ∧ a.lo < a.hi)
    (hint : ∀ p ∈ (centerIdx q g (stride t)).zip (g.map fun a => (a.res : ℤ)),
        ∀ o ∈ idx_add (stride t),
        ((stride t / 2 : ℕ) : ℤ) ≤ p.1 + o ∧ p.1 + o < p.2 + (stride t / 2 : ℕ)) :
    ∃ out : List ℝ, interpolation [q] ctx g t mem = .ok [out]
      ∧ out.getD ch 0 = (v : ℝ) := by
  by_cases htg : t = .gaussian
  · subst htg
    have hin := window_interior_padded (centerIdx q g 5) g 5 hint
    have hrow := window_interior_rows ctx g 5 (centerIdx q g 5) ch hch v hconst hint
    have hpre := interpPre_eval mem g ctx q 5 hd hsh hq hin
    have hdx : ∀ d ∈ dxs g, 0 < d := by
      intro d hd'
      obtain ⟨a, ha, rfl⟩ := List.mem_map.mp hd'
      exact dxAx_pos a (hok a ha).1 (hok a ha).2
    have hlenrow : ∀ dvr ∈ (specSlots 5 (centerIdx q g 5)).map (distOf q g 2),
        dvr.length = (dxs g).length := by
      intro dvr hdvr
      obtain ⟨js, hjs, rfl⟩ := List.mem_map.mp hdvr
      rw [distOf_length, dxs_length, hq, specSlots_len _ js hjs,
        centerIdx_length q g 5 hq]
      simp
    have hne : (specSlots 5 (centerIdx q g 5)).map (distOf q g 2) ≠ [] := by
      intro h
      exact specSlots_ne_nil 5 (by omega) _ (List.map_eq_nil_iff.mp h)
    obtain ⟨w, hw, _, hsum, hwlen⟩ := gaussian_weighting_eval _ (dxs g) hlenrow hne hdx
    have hv : ∀ r ∈ ((specSlots 5 (centerIdx q g 5)).map (valOf ctx g 2)).map castRow,
        r.getD ch 0 = (v : ℝ) := by
      intro r hr
      obtain ⟨r0, hr0, rfl⟩ := List.mem_map.mp hr
      obtain ⟨js, hjs, rfl⟩ := List.mem_map.mp hr0
      rw [castRow_getD _ _ (by rw [valOf_length]; exact hch), hrow js hjs]
    have hlen2 : w.length
        = (((specSlots 5 (centerIdx q g 5)).map (valOf ctx g 2)).map castRow).length := by
      rw [hwlen]
      simp
    obtain ⟨out, hout, hgd, _⟩ := reduce_const ctx.channels ch hch w _ ((v : ℚ) : ℝ)
      hlen2 hsum hv
    refine ⟨out, ?_, hgd⟩
    apply interpolation_single
    show interpGauss mem g ctx q = .ok out
    unfold interpGauss
    rw [show stride KernelType.gaussian = 5 from rfl, hpre, except_bind_okE,
      show (5 / 2 : ℕ) = 2 from rfl, hw, ofOption_someE, except_bind_okE]
    exact hout
  · obtain ⟨outq, hout, hgd, holen⟩ := interpAlg_const mem t htg g ctx q v ch hch
      hconst hd hsh hq hok hint
    refine ⟨castRow outq, ?_, ?_⟩
    · apply interpolation_single
      rw [interpOne_alg mem t g ctx q htg, hout]
      rfl
    · rw [castRow_getD _ _ (by rw [holen]; exact hch), hgd]

theorem C5_witness :
    ∃ out : List ℝ, interpolation [[1/2]] ctxConst grid1 .linear true = .ok [out]
      ∧ out.getD 0 0 = ((10 : ℚ) : ℝ) :=
  C5_amended_constant_field true .linear grid1 ctxConst [1/2] 10 0
    (by decide) (fun ix => rfl) (by decide) (by decide) (by decide)
    (by with_unfolding_all decide) (by with_unfolding_all decide)

/-- C5 fails in the padding region: the context channel is 10 at all nine
lattice nodes of the padded unit grid, the query -1/4 lies inside the
padded domain (start -1/2, end 3/2), yet linear interpolation returns 5,
because the window's lower node is a zero-filled padding node. -/
theorem C5_counterexample :
    interpolation [[-1/4]] ctxConst grid1 .linear true = .ok [[(5 : ℝ)]]
    ∧ (∀ ix : List ℕ, ctxConst.data (0 :: ix) = 10)
    ∧ (5 : ℝ) ≠ 10
    ∧ gridStarts grid1 1 true = [-1/2]
    ∧ nodeCoords grid1 1 [4] = [3/2]
    ∧ ((-1/2 : ℚ) ≤ -1/4 ∧ (-1/4 : ℚ) ≤ 3/2) := by
  refine ⟨?_, fun ix => rfl, by norm_num, by with_unfolding_all decide,
    by with_unfolding_all decide, by norm_num⟩
  have h : interpAlg true .linear grid1 ctxConst [-1/4] = .ok [5] := by
    with_unfolding_all decide
  have h2 := interpolation_single_alg true .linear grid1 ctxConst [-1/4]
    (fun hh => KernelType.noConfusion hh) [5] h
  rw [h2]
  norm_num [castRow]

/-- C3 (amended): the two gather strategies agree whenever every query's
window stays inside the padded lattice per axis (so no index wraps for
low_mem and none is out of range for high_mem), for all five kernels and
1-3 axis grids. -/
theorem C3_amended_strategy_equivalence (t : KernelType) (g : Grid) (ctx : CtxGrid)
    (qs : List (List ℚ))
    (hd : g.length = 1 ∨ g.length = 2 ∨ g.length = 3)
    (hsh : ctx.shape = g.map fun a => a.res)
    (hq : ∀ q ∈ qs, q.length = g.length)
    (hin : ∀ q ∈ qs, ∀ p ∈ (centerIdx q g (stride t)).zip (paddedRes g (stride t / 2)),
        ∀ o ∈ idx_add (stride t), 0 ≤ p.1 + o ∧ p.1 + o < (p.2 : ℤ)) :
    interpolation qs ctx g t true = interpolation qs ctx g t false := by
  show mapME (interpOne true t g ctx) qs = mapME (interpOne false t g ctx) qs
  apply mapME_congr
  intro q hq'
  have hpre : interpPre true g ctx q (stride t) = interpPre false g ctx q (stride t) := by
    rw [interpPre_eval true g ctx q (stride t) hd hsh (hq q hq') (hin q hq'),
      interpPre_eval false g ctx q (stride t) hd hsh (hq q hq') (hin q hq')]
  cases t <;>
    first
      | (show interpGauss true g ctx q = interpGauss false g ctx q
         unfold interpGauss
         rw [hpre])
      | (show (interpAlg true _ g ctx q).map castRow
            = (interpAlg false _ g ctx q).map castRow
         unfold interpAlg
         rw [hpre])

theorem C3_witness :
    interpolation [[1/4]] ctxHat grid1 .linear true
      = interpolation [[1/4]] ctxHat grid1 .linear false :=
  C3_amended_strategy_equivalence .linear grid1 ctxHat [[1/4]]
    (by decide) (by decide) (by decide) (by with_unfolding_all decide)

/-- C3 fails when a window leaves the padded lattice: for the gaussian
kernel at the query -1/2 on the padded unit grid the window index -1
wraps around under low_mem (the call succeeds) but raises under
high_mem's torch.gather (the call errors), so the two strategies do not
produce equal outputs for identical inputs. -/
theorem C3_counterexample :
    (∃ r : List ℝ, interpolation [[-1/2]] ctxHat grid1 .gaussian true = .ok [r])
    ∧ interpolation [[-1/2]] ctxHat grid1 .gaussian false
        = .error .indexOutOfRange := by
  constructor
  · have hpre : interpPre true grid1 ctxHat [-1/2] 5
        = .ok ([[-5/2], [1/2], [0], [-1/2], [-1]], [[0], [0], [0], [0], [10]]) := by
      with_unfolding_all decide
    obtain ⟨w, hw, _, _, hwlen⟩ := gaussian_weighting_eval
      [[-5/2], [1/2], [0], [-1/2], [-1]] (dxs grid1)
      (by intro v hv; fin_cases hv <;> rfl) (by simp)
      (by
        intro d hd
        rw [show dxs grid1 = [1/2] from by with_unfolding_all decide] at hd
        rw [List.mem_singleton.mp hd]
        norm_num)
    have hout : reduceOut 1 w ([[0], [0], [0], [0], [(10 : ℚ)]].map castRow)
        = .ok ((List.range 1).map fun c =>
            ((w.zip ([[0], [0], [0], [0], [(10 : ℚ)]].map castRow)).map
              fun p => p.1 * p.2.getD c 0).sum) := by
      unfold reduceOut
      rw [if_pos (by rw [hwlen]; rfl)]
    refine ⟨(List.range 1).map fun c =>
        ((w.zip ([[0], [0], [0], [0], [(10 : ℚ)]].map castRow)).map
          fun p => p.1 * p.2.getD c 0).sum, ?_⟩
    apply interpolation_single
    show interpGauss true grid1 ctxHat [-1/2] = _
    unfold interpGauss
    rw [show stride KernelType.gaussian = 5 from rfl, hpre, except_bind_okE, hw,
      ofOption_someE, except_bind_okE]
    exact hout
  · show mapME (interpOne false .gaussian grid1 ctxHat) [[-1/2]]
      = .error .indexOutOfRange
    apply mapME_error_head
    show interpGauss false grid1 ctxHat [-1/2] = _
    unfold interpGauss
    rw [show stride KernelType.gaussian = 5 from rfl,
      show interpPre false grid1 ctxHat [-1/2] 5 = .error .indexOutOfRange from by
        with_unfolding_all decide,
      except_bind_errorE]

end Modulus
